import Mathlib

/-!
Verification of the invoice core of the Codex-Rave repository.

The definitions below are a shallow embedding of the TypeScript source:

* `src/lib/utils/invoice-calculations.ts` (money and quantity arithmetic),
* `src/lib/utils/invoice-numbering.ts` (monthly numbering),
* `src/lib/utils/invoice-files.ts` (filename sanitisation),
* `src/lib/utils/ksef-fa3-xml.ts` (per-VAT-rate totals of the FA(3) XML),
* `src/lib/services/invoice.service.ts` (create/update orchestration).

JavaScript strings are modelled as `List Char`; JavaScript `bigint` as `Int`
(with `Int.tdiv` for its truncating division); JavaScript numbers that the
code keeps integral are modelled as exact integers, with the
`Number.MAX_SAFE_INTEGER` guard of the source kept explicit.  Functions that
`throw` are modelled with `Option`/`Except`.
-/

/-! ### Character helpers (JS string primitives) -/

/-- The decimal digit characters `0`-`9`, i.e. the JS regex class `\d`. -/
def isDigitChar (c : Char) : Bool :=
  48 ≤ c.toNat && c.toNat ≤ 57

/-- Numeric value of a decimal digit character. -/
def digitVal (c : Char) : Nat :=
  c.toNat - 48

/-- The decimal digit character for a value `d < 10`. -/
def decDigitChar (d : Nat) : Char :=
  Char.ofNat (48 + d)

/-- Whitespace as trimmed by JS `String.prototype.trim`. -/
def isJsWs (c : Char) : Bool :=
  (9 ≤ c.toNat && c.toNat ≤ 13) || c.toNat = 32 || c.toNat = 160 ||
    c.toNat = 0x1680 || (0x2000 ≤ c.toNat && c.toNat ≤ 0x200A) ||
    c.toNat = 0x2028 || c.toNat = 0x2029 || c.toNat = 0x202F ||
    c.toNat = 0x205F || c.toNat = 0x3000 || c.toNat = 0xFEFF

/-- JS `s.trim()`: drop whitespace from both ends. -/
def jsTrim (l : List Char) : List Char :=
  ((l.dropWhile isJsWs).reverse.dropWhile isJsWs).reverse

/-- JS `s.replace(',', '.')`: replace the first comma (if any) with a dot. -/
def jsReplaceComma (l : List Char) : List Char :=
  match l.dropWhile (· != ',') with
  | [] => l
  | _ :: post => l.takeWhile (· != ',') ++ '.' :: post

/-- JS `s.split('.')` followed by destructuring the first two parts:
the text before the first dot, and (when a dot exists) the text between the
first and second dot. -/
def splitDot (l : List Char) : List Char × Option (List Char) :=
  match l.dropWhile (· != '.') with
  | [] => (l.takeWhile (· != '.'), none)
  | _ :: rest => (l.takeWhile (· != '.'), some (rest.takeWhile (· != '.')))

/-- JS `s.padEnd(k, '0').slice(0, k)`. -/
def jsPadEndTake (k : Nat) (l : List Char) : List Char :=
  (l ++ List.replicate (k - l.length) '0').take k

/-- JS `s.padStart(k, c)`. -/
def jsPadStart (k : Nat) (c : Char) (l : List Char) : List Char :=
  List.replicate (k - l.length) c ++ l

/-- The anchored JS regex `^\d+(\.\d{1,maxFrac})?$`: a non-empty digit run,
optionally followed by a dot and one to `maxFrac` digits. -/
def decPattern (maxFrac : Nat) (l : List Char) : Bool :=
  !(l.takeWhile isDigitChar).isEmpty &&
    ((l.dropWhile isDigitChar).isEmpty ||
      ((l.dropWhile isDigitChar).head? == some '.' &&
        (l.dropWhile isDigitChar).tail.all isDigitChar &&
        !(l.dropWhile isDigitChar).tail.isEmpty &&
        (l.dropWhile isDigitChar).tail.length ≤ maxFrac))

/-! ### Decimal digit strings and their numeric value -/

/-- Numeric value of a decimal digit string (the value JS `BigInt(s)`
computes on a string of digits; `decValue [] = 0` just as `BigInt('')`). -/
def decValue (l : List Char) : Nat :=
  Nat.ofDigits 10 ((l.map digitVal).reverse)

/-- JS `BigInt(s)` on the digit-only strings the invoice code feeds it:
`some` of the decimal value when `s` is all digits, otherwise failure
(`BigInt` throws on the malformed strings reachable here). -/
def strToNat? (l : List Char) : Option Nat :=
  if l.all isDigitChar then some (decValue l) else none

/-- Fuel-driven decimal rendering (auxiliary for `natToDecChars`). -/
def natToDecAux : Nat → Nat → List Char
  | 0, _ => []
  | fuel + 1, n =>
    if n < 10 then [decDigitChar n]
    else natToDecAux fuel (n / 10) ++ [decDigitChar (n % 10)]

/-- JS `String(n)` for a non-negative integer `n`: its decimal digits,
without leading zeros. -/
def natToDecChars (n : Nat) : List Char :=
  if n = 0 then ['0'] else natToDecAux n n

/-! #### Lemmas about digit characters -/

theorem decDigitChar_toNat {d : Nat} (h : d < 10) : (decDigitChar d).toNat = 48 + d := by
  interval_cases d <;> decide

theorem isDigitChar_decDigitChar {d : Nat} (h : d < 10) : isDigitChar (decDigitChar d) = true := by
  interval_cases d <;> decide

theorem digitVal_decDigitChar {d : Nat} (h : d < 10) : digitVal (decDigitChar d) = d := by
  interval_cases d <;> decide

theorem isDigitChar_elim {c : Char} (h : isDigitChar c = true) :
    48 ≤ c.toNat ∧ c.toNat ≤ 57 := by
  simpa [isDigitChar, Bool.and_eq_true, decide_eq_true_eq] using h

theorem digitVal_lt_ten {c : Char} (h : isDigitChar c = true) : digitVal c < 10 := by
  obtain ⟨h1, h2⟩ := isDigitChar_elim h
  simp only [digitVal]
  omega

theorem char_eq_of_toNat_eq {c d : Char} (h : c.toNat = d.toNat) : c = d := by
  apply Char.ext
  exact UInt32.ext h

theorem decDigitChar_digitVal {c : Char} (h : isDigitChar c = true) :
    decDigitChar (digitVal c) = c := by
  obtain ⟨h1, h2⟩ := isDigitChar_elim h
  apply char_eq_of_toNat_eq
  rw [decDigitChar_toNat (by simp only [digitVal]; omega)]
  simp only [digitVal]
  omega

theorem isDigitChar_not_ws {c : Char} (h : isDigitChar c = true) : isJsWs c = false := by
  obtain ⟨h1, h2⟩ := isDigitChar_elim h
  rw [Bool.eq_false_iff]
  intro hw
  simp only [isJsWs, Bool.or_eq_true, Bool.and_eq_true, decide_eq_true_eq] at hw
  omega

theorem isDigitChar_ne_dot {c : Char} (h : isDigitChar c = true) : c ≠ '.' := by
  obtain ⟨h1, h2⟩ := isDigitChar_elim h
  intro hc
  subst hc
  exact absurd h1 (by decide)

theorem isDigitChar_ne_comma {c : Char} (h : isDigitChar c = true) : c ≠ ',' := by
  obtain ⟨h1, h2⟩ := isDigitChar_elim h
  intro hc
  subst hc
  exact absurd h1 (by decide)

/-! #### Lemmas about `decValue` and `natToDecChars` -/

theorem decValue_nil : decValue [] = 0 := rfl

theorem decValue_cons (c : Char) (cs : List Char) :
    decValue (c :: cs) = decValue cs + 10 ^ cs.length * digitVal c := by
  simp [decValue, Nat.ofDigits_append, Nat.ofDigits_singleton]

theorem decValue_lt {l : List Char} (h : ∀ c ∈ l, isDigitChar c = true) :
    decValue l < 10 ^ l.length := by
  induction l with
  | nil => simp [decValue_nil]
  | cons c cs ih =>
    have hc := digitVal_lt_ten (h c (List.mem_cons_self _ _))
    have hcs := ih (fun x hx => h x (List.mem_cons_of_mem _ hx))
    rw [decValue_cons, List.length_cons, pow_succ]
    nlinarith [pow_pos (show 0 < 10 by norm_num) cs.length]

theorem decValue_all_zero {l : List Char} (h : ∀ c ∈ l, c = '0') : decValue l = 0 := by
  induction l with
  | nil => rfl
  | cons c cs ih =>
    rw [decValue_cons, ih (fun x hx => h x (List.mem_cons_of_mem _ hx)),
      h c (List.mem_cons_self _ _)]
    rfl

theorem natToDecAux_spec :
    ∀ (fuel n : Nat), 0 < n → n ≤ fuel →
      natToDecAux fuel n = ((Nat.digits 10 n).map decDigitChar).reverse
  | 0, n, h, hf => absurd (Nat.lt_of_lt_of_le h hf) (by omega)
  | fuel + 1, n, h, hf => by
    simp only [natToDecAux]
    by_cases h10 : n < 10
    · rw [if_pos h10, Nat.digits_of_lt 10 n (by omega) h10]
      simp
    · rw [if_neg h10, Nat.digits_def' (by norm_num) h,
        natToDecAux_spec fuel (n / 10) (by omega) (by omega)]
      simp

theorem natToDecChars_eq {n : Nat} (h : n ≠ 0) :
    natToDecChars n = ((Nat.digits 10 n).map decDigitChar).reverse := by
  rw [natToDecChars, if_neg h]
  exact natToDecAux_spec n n (Nat.pos_of_ne_zero h) le_rfl

theorem decValue_natToDecChars (n : Nat) : decValue (natToDecChars n) = n := by
  by_cases h : n = 0
  · subst h; decide
  · rw [natToDecChars_eq h, decValue, ← List.map_reverse, List.reverse_reverse,
      List.map_map]
    have : (Nat.digits 10 n).map (digitVal ∘ decDigitChar) = Nat.digits 10 n := by
      rw [List.map_congr_left (fun d hd => by
        simp only [Function.comp]
        exact digitVal_decDigitChar (Nat.digits_lt_base (by norm_num) hd))]
      exact List.map_id _
    rw [this, Nat.ofDigits_digits]

theorem natToDecChars_all_digits (n : Nat) :
    ∀ c ∈ natToDecChars n, isDigitChar c = true := by
  by_cases h : n = 0
  · subst h; decide
  · rw [natToDecChars_eq h]
    intro c hc
    rw [List.mem_reverse, List.mem_map] at hc
    obtain ⟨d, hd, rfl⟩ := hc
    exact isDigitChar_decDigitChar (Nat.digits_lt_base (by norm_num) hd)

theorem natToDecChars_ne_nil (n : Nat) : natToDecChars n ≠ [] := by
  by_cases h : n = 0
  · subst h; decide
  · rw [natToDecChars_eq h]
    simp [Nat.digits_ne_nil_iff_ne_zero.mpr h]

theorem digitVal_ne_zero {c : Char} (hd : isDigitChar c = true) (h : c ≠ '0') :
    digitVal c ≠ 0 := by
  obtain ⟨h1, h2⟩ := isDigitChar_elim hd
  intro hv
  apply h
  apply char_eq_of_toNat_eq
  simp only [digitVal] at hv
  show c.toNat = 48
  omega

theorem natToDecChars_decValue {l : List Char}
    (hd : ∀ c ∈ l, isDigitChar c = true)
    (hlz : l = ['0'] ∨ (l ≠ [] ∧ l.head? ≠ some '0')) :
    natToDecChars (decValue l) = l := by
  rcases hlz with rfl | ⟨hne, hh⟩
  · decide
  · obtain ⟨c, cs, rfl⟩ := List.exists_cons_of_ne_nil hne
    have hc0 : c ≠ '0' := by
      intro h; exact hh (by rw [h]; rfl)
    set L : List Nat := ((c :: cs).map digitVal).reverse with hL
    have hL1 : ∀ d ∈ L, d < 10 := by
      intro d hdm
      rw [hL, List.mem_reverse, List.mem_map] at hdm
      obtain ⟨x, hx, rfl⟩ := hdm
      exact digitVal_lt_ten (hd x hx)
    have hLne : L ≠ [] := by simp [hL]
    have hlast : L.getLast? = some (digitVal c) := by
      rw [hL, List.getLast?_reverse]
      rfl
    have hL2 : ∀ h : L ≠ [], L.getLast h ≠ 0 := by
      intro h
      have := List.getLast?_eq_getLast L h
      rw [this] at hlast
      have : L.getLast h = digitVal c := by injection hlast
      rw [this]
      exact digitVal_ne_zero (hd c (List.mem_cons_self _ _)) hc0
    have hdig : Nat.digits 10 (Nat.ofDigits 10 L) = L :=
      Nat.digits_ofDigits 10 (by norm_num) L hL1 hL2
    have hne0 : decValue (c :: cs) ≠ 0 := by
      intro h0
      have : Nat.digits 10 (Nat.ofDigits 10 L) = [] := by
        show Nat.digits 10 (decValue (c :: cs)) = []
        rw [h0]
        exact Nat.digits_zero 10
      rw [hdig] at this
      exact hLne this
    rw [natToDecChars_eq hne0]
    show ((Nat.digits 10 (Nat.ofDigits 10 L)).map decDigitChar).reverse = c :: cs
    rw [hdig, hL, ← List.map_reverse, List.reverse_reverse, List.map_map]
    rw [List.map_congr_left (fun x hx => by
      simp only [Function.comp]
      exact decDigitChar_digitVal (hd x hx))]
    exact List.map_id _

/-! #### takeWhile/dropWhile helpers -/

theorem takeWhile_all {p : Char → Bool} :
    ∀ {l : List Char}, (∀ c ∈ l, p c = true) → l.takeWhile p = l
  | [], _ => rfl
  | c :: cs, h => by
    rw [List.takeWhile_cons, if_pos (h c (List.mem_cons_self _ _)),
      takeWhile_all (fun x hx => h x (List.mem_cons_of_mem _ hx))]

theorem dropWhile_all {p : Char → Bool} :
    ∀ {l : List Char}, (∀ c ∈ l, p c = true) → l.dropWhile p = []
  | [], _ => rfl
  | c :: cs, h => by
    rw [List.dropWhile_cons, if_pos (h c (List.mem_cons_self _ _))]
    exact dropWhile_all (fun x hx => h x (List.mem_cons_of_mem _ hx))

theorem dropWhile_all_false {p : Char → Bool} {l : List Char}
    (h : ∀ c ∈ l, p c = false) : l.dropWhile p = l := by
  cases l with
  | nil => rfl
  | cons c cs =>
    rw [List.dropWhile_cons, if_neg (by simp [h c (List.mem_cons_self _ _)])]

theorem takeWhile_append_cons {p : Char → Bool} {A : List Char} {b : Char} {B : List Char}
    (hA : ∀ c ∈ A, p c = true) (hb : p b = false) :
    (A ++ b :: B).takeWhile p = A := by
  induction A with
  | nil => simp [List.takeWhile_cons, hb]
  | cons a as ih =>
    rw [List.cons_append, List.takeWhile_cons, if_pos (hA a (List.mem_cons_self _ _)),
      ih (fun x hx => hA x (List.mem_cons_of_mem _ hx))]

theorem dropWhile_append_cons {p : Char → Bool} {A : List Char} {b : Char} {B : List Char}
    (hA : ∀ c ∈ A, p c = true) (hb : p b = false) :
    (A ++ b :: B).dropWhile p = b :: B := by
  induction A with
  | nil => simp [List.dropWhile_cons, hb]
  | cons a as ih =>
    rw [List.cons_append, List.dropWhile_cons, if_pos (hA a (List.mem_cons_self _ _))]
    exact ih (fun x hx => hA x (List.mem_cons_of_mem _ hx))

theorem jsTrim_of_no_ws {l : List Char} (h : ∀ c ∈ l, isJsWs c = false) :
    jsTrim l = l := by
  rw [jsTrim, dropWhile_all_false h, dropWhile_all_false (by
    intro c hc
    exact h c (List.mem_reverse.mp hc)), List.reverse_reverse]

theorem jsReplaceComma_of_no_comma {l : List Char} (h : ∀ c ∈ l, c ≠ ',') :
    jsReplaceComma l = l := by
  rw [jsReplaceComma]
  have : l.dropWhile (· != ',') = [] := dropWhile_all (fun c hc => bne_iff_ne.mpr (h c hc))
  rw [this]

/-! #### Dissecting strings that match `decPattern` -/

theorem decPattern_elim {k : Nat} {l : List Char} (h : decPattern k l = true) :
    l.takeWhile isDigitChar ≠ [] ∧
      (l.dropWhile isDigitChar = [] ∨
        ∃ fs, l.dropWhile isDigitChar = '.' :: fs ∧ (∀ c ∈ fs, isDigitChar c = true) ∧
          fs ≠ [] ∧ fs.length ≤ k) := by
  rw [decPattern, Bool.and_eq_true] at h
  obtain ⟨h1, h2⟩ := h
  refine ⟨by simpa [List.isEmpty_iff] using h1, ?_⟩
  rw [Bool.or_eq_true] at h2
  rcases h2 with h2 | h2
  · left
    simpa [List.isEmpty_iff] using h2
  · right
    simp only [Bool.and_eq_true, beq_iff_eq, List.all_eq_true, List.isEmpty_iff,
      Bool.not_eq_true', decide_eq_true_eq] at h2
    obtain ⟨⟨⟨hhead, hall⟩, htne⟩, hlen⟩ := h2
    cases hrest : l.dropWhile isDigitChar with
    | nil => rw [hrest] at hhead; cases hhead
    | cons c fs =>
      rw [hrest] at hhead hall htne hlen
      simp only [List.head?_cons, Option.some.injEq] at hhead
      subst hhead
      exact ⟨fs, rfl, fun c hc => hall c hc, by simpa using htne, hlen⟩

theorem decPattern_cases {k : Nat} {l : List Char} (h : decPattern k l = true) :
    ((∀ c ∈ l, isDigitChar c = true) ∧ l ≠ []) ∨
      ∃ ds fs, l = ds ++ '.' :: fs ∧ ds ≠ [] ∧ (∀ c ∈ ds, isDigitChar c = true) ∧
        fs ≠ [] ∧ (∀ c ∈ fs, isDigitChar c = true) ∧ fs.length ≤ k := by
  obtain ⟨h1, h2⟩ := decPattern_elim h
  rcases h2 with h2 | ⟨fs, hrest, hfs, hfne, hlen⟩
  · left
    have hl : l = l.takeWhile isDigitChar := by
      conv_lhs => rw [← List.takeWhile_append_dropWhile isDigitChar l]
      rw [h2, List.append_nil]
    constructor
    · intro c hc
      exact List.mem_takeWhile_imp (hl ▸ hc)
    · intro hnil
      apply h1
      rw [hnil]
      rfl
  · right
    refine ⟨l.takeWhile isDigitChar, fs, ?_, h1, fun c hc => List.mem_takeWhile_imp hc,
      hfne, hfs, hlen⟩
    conv_lhs => rw [← List.takeWhile_append_dropWhile isDigitChar l]
    rw [hrest]

theorem decPattern_trim_replace {k : Nat} {l : List Char} (h : decPattern k l = true) :
    jsReplaceComma (jsTrim l) = l := by
  have hchars : ∀ c ∈ l, isDigitChar c = true ∨ c = '.' := by
    rcases decPattern_cases h with ⟨hall, _⟩ | ⟨ds, fs, rfl, _, hds, _, hfs, _⟩
    · exact fun c hc => Or.inl (hall c hc)
    · intro c hc
      rcases List.mem_append.mp hc with hc | hc
      · exact Or.inl (hds c hc)
      · rcases List.mem_cons.mp hc with rfl | hc
        · exact Or.inr rfl
        · exact Or.inl (hfs c hc)
  rw [jsTrim_of_no_ws (fun c hc => by
    rcases hchars c hc with hd | rfl
    · exact isDigitChar_not_ws hd
    · decide)]
  exact jsReplaceComma_of_no_comma (fun c hc => by
    rcases hchars c hc with hd | rfl
    · exact isDigitChar_ne_comma hd
    · decide)

theorem splitDot_all_digits {l : List Char} (h : ∀ c ∈ l, isDigitChar c = true) :
    splitDot l = (l, none) := by
  rw [splitDot]
  have hd : l.dropWhile (· != '.') = [] :=
    dropWhile_all (fun c hc => bne_iff_ne.mpr (isDigitChar_ne_dot (h c hc)))
  rw [hd]
  rw [takeWhile_all (fun c hc => bne_iff_ne.mpr (isDigitChar_ne_dot (h c hc)))]

theorem splitDot_append_digits {A B : List Char}
    (hA : ∀ c ∈ A, isDigitChar c = true) (hB : ∀ c ∈ B, isDigitChar c = true) :
    splitDot (A ++ '.' :: B) = (A, some B) := by
  have hAp : ∀ c ∈ A, (c != '.') = true :=
    fun c hc => bne_iff_ne.mpr (isDigitChar_ne_dot (hA c hc))
  have hdot : (('.' : Char) != '.') = false := by decide
  simp only [splitDot, dropWhile_append_cons hAp hdot, takeWhile_append_cons hAp hdot]
  rw [takeWhile_all (fun c hc => bne_iff_ne.mpr (isDigitChar_ne_dot (hB c hc)))]

theorem jsPadEndTake_of_le {k : Nat} {l : List Char} (h : l.length ≤ k) :
    jsPadEndTake k l = l ++ List.replicate (k - l.length) '0' := by
  rw [jsPadEndTake]
  apply List.take_of_length_le
  simp [List.length_append, List.length_replicate]
  omega

theorem jsPadEndTake_length {k : Nat} {l : List Char} (h : l.length ≤ k) :
    (jsPadEndTake k l).length = k := by
  rw [jsPadEndTake_of_le h]
  simp [List.length_append, List.length_replicate]
  omega

/-! ### `src/lib/utils/invoice-calculations.ts` -/

/-- `Number.MAX_SAFE_INTEGER`. -/
def maxSafeInteger : Nat := 9007199254740991

/-- Halvings needed to bring `n` below `2^53`, i.e. the shift of `n`'s
leading 53 bits (auxiliary for `roundToDoubleNat`; the first argument is
fuel, always called with `n` itself). -/
def binadeShift : Nat → Nat → Nat
  | 0, _ => 0
  | fuel + 1, n => if n < 2 ^ 53 then 0 else binadeShift fuel (n / 2) + 1

/-- IEEE-754 round-to-nearest-even of a non-negative integer to the
nearest `binary64` value: exact below `2^53`, otherwise rounded to the
53-bit mantissa window (overflow to infinity, beyond `2^1024`, is not
modelled; no value in this development comes near it). -/
def roundToDoubleNat (n : Nat) : Nat :=
  if n < 2 ^ 53 then n
  else
    if 2 * (n % 2 ^ binadeShift n n) < 2 ^ binadeShift n n then
      n / 2 ^ binadeShift n n * 2 ^ binadeShift n n
    else if 2 * (n % 2 ^ binadeShift n n) > 2 ^ binadeShift n n then
      (n / 2 ^ binadeShift n n + 1) * 2 ^ binadeShift n n
    else if n / 2 ^ binadeShift n n % 2 = 0 then
      n / 2 ^ binadeShift n n * 2 ^ binadeShift n n
    else (n / 2 ^ binadeShift n n + 1) * 2 ^ binadeShift n n

/-- Round-to-nearest-even on integers (`binary64` is symmetric under
negation). -/
def roundToDouble (v : Int) : Int :=
  if v < 0 then -((roundToDoubleNat v.natAbs : Nat) : Int)
  else ((roundToDoubleNat v.natAbs : Nat) : Int)

/-- JS `+` on integer-valued numbers: the exact sum, rounded to the
nearest double. -/
def jsAddNum (a b : Int) : Int :=
  roundToDouble (a + b)

theorem roundToDoubleNat_exact {n : Nat} (h : n ≤ maxSafeInteger) :
    roundToDoubleNat n = n := by
  rw [roundToDoubleNat, if_pos]
  have h53 : (2 : Nat) ^ 53 = 9007199254740992 := by norm_num
  rw [maxSafeInteger] at h
  omega

theorem jsAddNum_exact {a b : Int} (ha : 0 ≤ a) (hb : 0 ≤ b)
    (h : a + b ≤ (maxSafeInteger : Int)) : jsAddNum a b = a + b := by
  rw [jsAddNum, roundToDouble, if_neg (by omega)]
  have hna : (a + b).natAbs ≤ maxSafeInteger := by
    rw [maxSafeInteger] at h ⊢
    omega
  rw [roundToDoubleNat_exact hna, Int.natAbs_of_nonneg (by omega)]

/-- The `VatRate` union type of `src/types`: `23 | 8 | 5 | 0 | 'ZW' | 'NP'`. -/
inductive VatRate where
  | v23
  | v8
  | v5
  | v0
  | zw
  | np
deriving DecidableEq, Repr

/-- `vatRateToNumber`: numeric rates map to themselves, `'ZW'`/`'NP'` to 0. -/
def vatRateToNumber : VatRate → Nat
  | .v23 => 23
  | .v8 => 8
  | .v5 => 5
  | .v0 => 0
  | .zw => 0
  | .np => 0

/-- `divRound` of the source, on `bigint` (`Int.tdiv` is JS `bigint`
division).  The source's recursive call `-divRound(-numerator, denominator)`
is unfolded once: the callee's argument is non-negative and the
denominator-zero check has already been passed. -/
def divRound (numerator denominator : Int) : Option Int :=
  if denominator = 0 then none
  else if numerator < 0 then
    some (-(Int.tdiv (-numerator + Int.tdiv denominator 2) denominator))
  else some (Int.tdiv (numerator + Int.tdiv denominator 2) denominator)

/-- `quantityToMilli`: trim, `,`→`.`, split at the dot, pad the fraction to
three digits, value `= int*1000 + frac`. -/
def quantityToMilli (q : List Char) : Option Nat :=
  match strToNat? (splitDot (jsReplaceComma (jsTrim q))).1,
      strToNat? (jsPadEndTake 3 (((splitDot (jsReplaceComma (jsTrim q))).2).getD [])) with
  | some i, some f => some (i * 1000 + f)
  | _, _ => none

/-- Trailing-zero stripping, JS `s.replace(/0+$/, '')`. -/
def stripTrailingZeros (l : List Char) : List Char :=
  (l.reverse.dropWhile (· == '0')).reverse

/-- `normalizeQuantity`: validate against `^\d+(\.\d{1,3})?$` (after trim and
`,`→`.`), then canonicalise: the integer part goes through the source's
`String(Number(intPart))` — `Number` of a digit string is the nearest
double (`roundToDoubleNat`, exact below `2^53`) and `String` of an integral
double renders its exact decimal digits (faithful below `1e21`, where JS
still uses fixed notation) — and the three-digit fraction loses its
trailing zeros. -/
def normalizeQuantity (q : List Char) : Option (List Char) :=
  if decPattern 3 (jsReplaceComma (jsTrim q)) then
    some
      (if (stripTrailingZeros (jsPadEndTake 3
            (((splitDot (jsReplaceComma (jsTrim q))).2).getD []))).isEmpty
       then natToDecChars (roundToDoubleNat
         (decValue (splitDot (jsReplaceComma (jsTrim q))).1))
       else natToDecChars (roundToDoubleNat
           (decValue (splitDot (jsReplaceComma (jsTrim q))).1)) ++
         '.' :: stripTrailingZeros (jsPadEndTake 3
           (((splitDot (jsReplaceComma (jsTrim q))).2).getD [])))
  else none

/-- `plnToGrosze` on a string argument: trim, `,`→`.`, validate against
`^\d+(\.\d{1,2})?$`, value `= int*100 + frac`, reject values above
`Number.MAX_SAFE_INTEGER`. -/
def plnToGrosze (v : List Char) : Option Nat :=
  if decPattern 2 (jsReplaceComma (jsTrim v)) then
    match strToNat? (splitDot (jsReplaceComma (jsTrim v))).1,
        strToNat? (jsPadEndTake 2 (((splitDot (jsReplaceComma (jsTrim v))).2).getD [])) with
    | some i, some f => if i * 100 + f > maxSafeInteger then none else some (i * 100 + f)
    | _, _ => none
  else none

/-- `groszeToPlnString`: sign, integer zloty part (`Math.floor(abs/100)`),
two-digit grosze part (`String(abs%100).padStart(2,'0')`). -/
def groszeToPlnString (grosze : Int) : List Char :=
  (if grosze < 0 then ['-'] else []) ++
    natToDecChars (grosze.natAbs / 100) ++
    '.' :: jsPadStart 2 '0' (natToDecChars (grosze.natAbs % 100))

/-- The line amounts returned by `calculateLineAmounts`. -/
structure LineAmounts where
  net_grosze : Int
  vat_grosze : Int
  gross_grosze : Int
deriving DecidableEq, Repr

/-- The input of `calculateLineAmounts`. -/
structure LineInput where
  quantity : List Char
  unit_price_grosze : Int
  vat_rate : VatRate

/-- The source's `toNumberSafe` guard: `bigint` → JS number, rejecting
values above `Number.MAX_SAFE_INTEGER`. -/
def toNumberSafe (v : Int) : Option Int :=
  if v > (maxSafeInteger : Int) then none else some v

/-- `calculateLineAmounts`.  (`Number.isInteger(unit_price_grosze)` is
vacuous in the integer model; the `< 0` rejection is kept.  `qtyMilli ≤ 0n`
on the non-negative parsed quantity is the `= 0` test.) -/
def calculateLineAmounts (input : LineInput) : Option LineAmounts :=
  if input.unit_price_grosze < 0 then none
  else
    match quantityToMilli input.quantity with
    | none => none
    | some qtyMilli =>
      if qtyMilli = 0 then none
      else
        match divRound (input.unit_price_grosze * (qtyMilli : Int)) 1000 with
        | none => none
        | some net =>
          match
            (if (vatRateToNumber input.vat_rate : Int) = 0 then some 0
             else divRound (net * (vatRateToNumber input.vat_rate : Int)) 100) with
          | none => none
          | some vat =>
            match toNumberSafe net, toNumberSafe vat, toNumberSafe (net + vat) with
            | some n, some v, some g => some ⟨n, v, g⟩
            | _, _, _ => none


/-- The totals returned by `calculateInvoiceTotals`. -/
structure InvoiceTotals where
  subtotal_grosze : Int
  tax_grosze : Int
  total_grosze : Int
deriving DecidableEq, Repr

/-- `calculateInvoiceTotals`: three independent `reduce`-sums; the `+` of
the source adds JS numbers, i.e. doubles (`jsAddNum`). -/
def calculateInvoiceTotals (items : List LineAmounts) : InvoiceTotals :=
  ⟨items.foldl (fun sum it => jsAddNum sum it.net_grosze) 0,
    items.foldl (fun sum it => jsAddNum sum it.vat_grosze) 0,
    items.foldl (fun sum it => jsAddNum sum it.gross_grosze) 0⟩

/-- The rounding rule named in the specification:
`round_half_up(n, d) = (n + d/2) / d` in exact integer arithmetic. -/
def roundHalfUp (n d : Nat) : Nat :=
  (n + d / 2) / d

/-! #### Arithmetic bridges for `divRound` -/

theorem divRound_natCast (a b : Nat) (hb : b ≠ 0) :
    divRound (a : Int) (b : Int) = some ((roundHalfUp a b : Nat) : Int) := by
  rw [divRound, if_neg (by exact_mod_cast hb),
    if_neg (by simp [Int.not_lt, Int.natCast_nonneg])]
  congr 1

theorem toNumberSafe_some {x y : Int} (h : toNumberSafe x = some y) :
    y = x ∧ x ≤ (maxSafeInteger : Int) := by
  rw [toNumberSafe] at h
  by_cases hc : x > (maxSafeInteger : Int)
  · rw [if_pos hc] at h
    cases h
  · rw [if_neg hc] at h
    exact ⟨(Option.some.injEq _ _ ▸ h).symm, le_of_not_lt hc⟩

/-- Success of `calculateLineAmounts` pins down all three amounts. -/
theorem calculateLineAmounts_inv {q : List Char} {p m : Nat} {rate : VatRate}
    {la : LineAmounts} (hm : quantityToMilli q = some m) (hpos : 0 < m)
    (h : calculateLineAmounts ⟨q, (p : Int), rate⟩ = some la) :
    la.net_grosze = ((roundHalfUp (p * m) 1000 : Nat) : Int) ∧
      la.vat_grosze = (((if vatRateToNumber rate = 0 then 0
        else roundHalfUp (roundHalfUp (p * m) 1000 * vatRateToNumber rate) 100 : Nat)) : Int) ∧
      la.gross_grosze = la.net_grosze + la.vat_grosze := by
  rw [calculateLineAmounts] at h
  simp only at h
  rw [if_neg (by simp [Int.not_lt, Int.natCast_nonneg]), hm] at h
  simp only at h
  rw [if_neg (by omega)] at h
  have hcast : (p : Int) * (m : Int) = ((p * m : Nat) : Int) := by
    push_cast
    ring
  rw [hcast, show (1000 : Int) = ((1000 : Nat) : Int) from by norm_cast,
    divRound_natCast (p * m) 1000 (by norm_num)] at h
  simp only at h
  set netN : Nat := roundHalfUp (p * m) 1000 with hnet
  set vatN : Nat := if vatRateToNumber rate = 0 then 0
    else roundHalfUp (netN * vatRateToNumber rate) 100 with hvatN
  have hvat : (if ((vatRateToNumber rate : Nat) : Int) = 0 then some (0 : Int)
      else divRound ((netN : Int) * ((vatRateToNumber rate : Nat) : Int)) 100) =
      some ((vatN : Nat) : Int) := by
    by_cases h0 : vatRateToNumber rate = 0
    · rw [if_pos (by exact_mod_cast h0), hvatN, if_pos h0]
      rfl
    · rw [if_neg (by exact_mod_cast h0)]
      have hc2 : (netN : Int) * ((vatRateToNumber rate : Nat) : Int) =
          ((netN * vatRateToNumber rate : Nat) : Int) := by
        push_cast
        ring
      rw [hc2, show (100 : Int) = ((100 : Nat) : Int) from by norm_cast,
        divRound_natCast _ 100 (by norm_num), hvatN, if_neg h0]
  rw [hvat] at h
  simp only at h
  cases hn : toNumberSafe ((netN : Nat) : Int) with
  | none => rw [hn] at h; cases h
  | some n =>
    cases hv : toNumberSafe ((vatN : Nat) : Int) with
    | none => rw [hn, hv] at h; cases h
    | some v =>
      cases hg : toNumberSafe (((netN : Nat) : Int) + ((vatN : Nat) : Int)) with
      | none => rw [hn, hv, hg] at h; cases h
      | some g =>
        rw [hn, hv, hg] at h
        simp only [Option.some.injEq] at h
        obtain ⟨hn', _⟩ := toNumberSafe_some hn
        obtain ⟨hv', _⟩ := toNumberSafe_some hv
        obtain ⟨hg', _⟩ := toNumberSafe_some hg
        subst h
        refine ⟨hn', hv', ?_⟩
        rw [hg', hn', hv']

/-- C1: for every invoice item whose quantity string matches the allowed
decimal pattern and denotes a strictly positive value (`quantityToMilli`
yields `m > 0`), whose unit price is a non-negative integer and whose VAT
rate is one of {23, 8, 5, 0, ZW, NP}, a successful `calculateLineAmounts`
returns `net_grosze = round_half_up(price * m, 1000)`, `vat_grosze = 0` for
ZW/NP and `round_half_up(net * rate, 100)` for numeric rates, and
`gross_grosze = net_grosze + vat_grosze`. -/
theorem C1_calculateLineAmounts (q : List Char) (p m : Nat) (rate : VatRate)
    (la : LineAmounts)
    (hpat : decPattern 3 (jsReplaceComma (jsTrim q)) = true)
    (hm : quantityToMilli q = some m) (hpos : 0 < m)
    (h : calculateLineAmounts ⟨q, (p : Int), rate⟩ = some la) :
    la.net_grosze = ((roundHalfUp (p * m) 1000 : Nat) : Int) ∧
      la.vat_grosze = (if rate = .zw ∨ rate = .np then (0 : Int)
        else ((roundHalfUp (roundHalfUp (p * m) 1000 * vatRateToNumber rate) 100 : Nat) : Int)) ∧
      la.gross_grosze = la.net_grosze + la.vat_grosze := by
  obtain ⟨h1, h2, h3⟩ := calculateLineAmounts_inv hm hpos h
  refine ⟨h1, ?_, h3⟩
  rw [h2]
  cases rate <;> simp [vatRateToNumber, roundHalfUp]

/-- The quantity string of the S2 scenario. -/
def sampleQuantity25 : List Char := "2.5".toList

/-- The quantity string `1`. -/
def sampleQuantity1 : List Char := "1".toList

/-- C1 witness: the S2 item (quantity 2.5h at 80.00 zl, 8 %). -/
theorem C1_calculateLineAmounts_witness :
    (⟨20000, 1600, 21600⟩ : LineAmounts).net_grosze =
        ((roundHalfUp (8000 * 2500) 1000 : Nat) : Int) ∧
      (⟨20000, 1600, 21600⟩ : LineAmounts).vat_grosze =
        (if VatRate.v8 = .zw ∨ VatRate.v8 = .np then (0 : Int)
          else ((roundHalfUp (roundHalfUp (8000 * 2500) 1000 *
            vatRateToNumber VatRate.v8) 100 : Nat) : Int)) ∧
      (⟨20000, 1600, 21600⟩ : LineAmounts).gross_grosze =
        (⟨20000, 1600, 21600⟩ : LineAmounts).net_grosze +
          (⟨20000, 1600, 21600⟩ : LineAmounts).vat_grosze :=
  C1_calculateLineAmounts sampleQuantity25 8000 2500 .v8 ⟨20000, 1600, 21600⟩
    (by decide) (by decide) (by decide) (by decide)

/-- Whenever `calculateLineAmounts` succeeds, gross = net + vat. -/
theorem calculateLineAmounts_gross {i : LineInput} {la : LineAmounts}
    (h : calculateLineAmounts i = some la) :
    la.gross_grosze = la.net_grosze + la.vat_grosze := by
  obtain ⟨q, price, rate⟩ := i
  by_cases hp : price < 0
  · rw [calculateLineAmounts, if_pos hp] at h
    cases h
  · obtain ⟨p, rfl⟩ := Int.eq_ofNat_of_zero_le (not_lt.mp hp)
    cases hq : quantityToMilli q with
    | none =>
      rw [calculateLineAmounts] at h
      simp only at h
      rw [if_neg hp, hq] at h
      simp only at h
      cases h
    | some m =>
      by_cases hm0 : m = 0
      · subst hm0
        rw [calculateLineAmounts] at h
        simp only at h
        rw [if_neg hp, hq] at h
        simp at h
      · exact (calculateLineAmounts_inv hq (Nat.pos_of_ne_zero hm0) h).2.2

/-- Whenever `calculateLineAmounts` succeeds, all three amounts are
non-negative (they are rounded quotients of non-negative products). -/
theorem calculateLineAmounts_nonneg {i : LineInput} {la : LineAmounts}
    (h : calculateLineAmounts i = some la) :
    0 ≤ la.net_grosze ∧ 0 ≤ la.vat_grosze ∧ 0 ≤ la.gross_grosze := by
  obtain ⟨q, price, rate⟩ := i
  by_cases hp : price < 0
  · rw [calculateLineAmounts, if_pos hp] at h
    cases h
  · obtain ⟨p, rfl⟩ := Int.eq_ofNat_of_zero_le (not_lt.mp hp)
    cases hq : quantityToMilli q with
    | none =>
      rw [calculateLineAmounts] at h
      simp only at h
      rw [if_neg hp, hq] at h
      simp only at h
      cases h
    | some m =>
      by_cases hm0 : m = 0
      · subst hm0
        rw [calculateLineAmounts] at h
        simp only at h
        rw [if_neg hp, hq] at h
        simp at h
      · obtain ⟨h1, h2, h3⟩ :=
          calculateLineAmounts_inv hq (Nat.pos_of_ne_zero hm0) h
        have hn : 0 ≤ la.net_grosze := by
          rw [h1]
          exact Int.natCast_nonneg _
        have hv : 0 ≤ la.vat_grosze := by
          rw [h2]
          exact Int.natCast_nonneg _
        exact ⟨hn, hv, by rw [h3]; exact add_nonneg hn hv⟩

/-- `reduce((sum, it) => sum + f(it), init)` with JS-double addition computes
the exact sum as long as every partial sum stays within
`Number.MAX_SAFE_INTEGER` (for non-negative summands it suffices that the
final sum does). -/
theorem foldl_jsAdd_eq_sum (f : LineAmounts → Int) :
    ∀ (items : List LineAmounts) (init : Int), 0 ≤ init →
      (∀ la ∈ items, 0 ≤ f la) →
      init + (items.map f).sum ≤ (maxSafeInteger : Int) →
      items.foldl (fun sum it => jsAddNum sum (f it)) init =
        init + (items.map f).sum
  | [], init, _, _, _ => by simp
  | a :: as, init, hinit, hnn, hbound => by
    have ha : 0 ≤ f a := hnn a (List.mem_cons_self a as)
    have hrest : 0 ≤ (as.map f).sum := by
      refine List.sum_nonneg ?_
      intro x hx
      obtain ⟨la, hla, rfl⟩ := List.mem_map.mp hx
      exact hnn la (List.mem_cons_of_mem a hla)
    rw [List.map_cons, List.sum_cons] at hbound
    have hstep : init + f a ≤ (maxSafeInteger : Int) := by omega
    rw [List.foldl_cons, jsAddNum_exact hinit ha hstep,
      foldl_jsAdd_eq_sum f as (init + f a) (add_nonneg hinit ha)
        (fun la hla => hnn la (List.mem_cons_of_mem a hla)) (by omega),
      List.map_cons, List.sum_cons]
    ring

/-- Pointwise sums of integer lists split. -/
theorem sum_map_add (f g : LineAmounts → Int) :
    ∀ items : List LineAmounts,
      (items.map (fun la => f la + g la)).sum = (items.map f).sum + (items.map g).sum
  | [] => by simp
  | a :: as => by
    rw [List.map_cons, List.sum_cons, sum_map_add f g as, List.map_cons,
      List.map_cons, List.sum_cons, List.sum_cons]
    ring

/-- A VAT-exempt unit-quantity line at price `MAX_SAFE_INTEGER` groszy,
exactly as `calculateLineAmounts` produces it. -/
def hugeLine : LineAmounts := ⟨9007199254740991, 0, 9007199254740991⟩

/-- A VAT-exempt unit-quantity line at price 2 groszy. -/
def smallLine : LineAmounts := ⟨2, 0, 2⟩

/-- C2 counterexample: both lines are produced by `calculateLineAmounts`,
yet the subtotal of the two-item invoice is the JS-double sum
`9007199254740992`, one short of the exact sum `9007199254740993`
(`2^53 + 1` is a rounding tie and `+` rounds it to even). -/
theorem C2_calculateInvoiceTotals_cex :
    calculateLineAmounts ⟨sampleQuantity1, (9007199254740991 : Int), .zw⟩ =
        some hugeLine ∧
      calculateLineAmounts ⟨sampleQuantity1, (2 : Int), .zw⟩ = some smallLine ∧
      (calculateInvoiceTotals [hugeLine, smallLine]).subtotal_grosze =
        9007199254740992 ∧
      ([hugeLine, smallLine].map (fun la => la.net_grosze)).sum =
        9007199254740993 ∧
      (calculateInvoiceTotals [hugeLine, smallLine]).subtotal_grosze ≠
        ([hugeLine, smallLine].map (fun la => la.net_grosze)).sum := by
  refine ⟨by decide, by decide, by decide, by decide, by decide⟩

/-- C2 (amended): for a list of items produced by `calculateLineAmounts`
whose exact gross total stays within `Number.MAX_SAFE_INTEGER`,
`calculateInvoiceTotals` (whose `reduce`-sums add JS doubles) returns the
three exact independent sums, and total = subtotal + tax. -/
theorem C2_calculateInvoiceTotals (items : List LineAmounts)
    (hprod : ∀ la ∈ items, ∃ i : LineInput, calculateLineAmounts i = some la)
    (hbound : (items.map (fun la => la.gross_grosze)).sum ≤ (maxSafeInteger : Int)) :
    (calculateInvoiceTotals items).subtotal_grosze =
        (items.map (fun la => la.net_grosze)).sum ∧
      (calculateInvoiceTotals items).tax_grosze =
        (items.map (fun la => la.vat_grosze)).sum ∧
      (calculateInvoiceTotals items).total_grosze =
        (items.map (fun la => la.gross_grosze)).sum ∧
      (calculateInvoiceTotals items).total_grosze =
        (calculateInvoiceTotals items).subtotal_grosze +
          (calculateInvoiceTotals items).tax_grosze := by
  have hnet : ∀ la ∈ items, 0 ≤ la.net_grosze := fun la hla =>
    (calculateLineAmounts_nonneg (hprod la hla).choose_spec).1
  have hvat : ∀ la ∈ items, 0 ≤ la.vat_grosze := fun la hla =>
    (calculateLineAmounts_nonneg (hprod la hla).choose_spec).2.1
  have hgross : ∀ la ∈ items, 0 ≤ la.gross_grosze := fun la hla =>
    (calculateLineAmounts_nonneg (hprod la hla).choose_spec).2.2
  have hsplit : (items.map (fun la => la.gross_grosze)).sum =
      (items.map (fun la => la.net_grosze)).sum +
        (items.map (fun la => la.vat_grosze)).sum := by
    rw [List.map_congr_left (fun la hla => calculateLineAmounts_gross
      (hprod la hla).choose_spec)]
    exact sum_map_add (fun la => la.net_grosze) (fun la => la.vat_grosze) items
  have hsumnet : 0 ≤ (items.map (fun la => la.net_grosze)).sum := by
    refine List.sum_nonneg ?_
    intro x hx
    obtain ⟨la, hla, rfl⟩ := List.mem_map.mp hx
    exact hnet la hla
  have hsumvat : 0 ≤ (items.map (fun la => la.vat_grosze)).sum := by
    refine List.sum_nonneg ?_
    intro x hx
    obtain ⟨la, hla, rfl⟩ := List.mem_map.mp hx
    exact hvat la hla
  have h1 : (calculateInvoiceTotals items).subtotal_grosze =
      (items.map (fun la => la.net_grosze)).sum := by
    rw [calculateInvoiceTotals]
    simpa using foldl_jsAdd_eq_sum (fun la => la.net_grosze) items 0 le_rfl
      hnet (by omega)
  have h2 : (calculateInvoiceTotals items).tax_grosze =
      (items.map (fun la => la.vat_grosze)).sum := by
    rw [calculateInvoiceTotals]
    simpa using foldl_jsAdd_eq_sum (fun la => la.vat_grosze) items 0 le_rfl
      hvat (by omega)
  have h3 : (calculateInvoiceTotals items).total_grosze =
      (items.map (fun la => la.gross_grosze)).sum := by
    rw [calculateInvoiceTotals]
    simpa using foldl_jsAdd_eq_sum (fun la => la.gross_grosze) items 0 le_rfl
      hgross (by omega)
  refine ⟨h1, h2, h3, ?_⟩
  rw [h1, h2, h3, hsplit]

/-- C2 witness: a one-item invoice (the S1 item). -/
theorem C2_calculateInvoiceTotals_witness :
    (calculateInvoiceTotals [⟨10000, 2300, 12300⟩]).subtotal_grosze =
        ([(⟨10000, 2300, 12300⟩ : LineAmounts)].map (fun la => la.net_grosze)).sum ∧
      (calculateInvoiceTotals [⟨10000, 2300, 12300⟩]).tax_grosze =
        ([(⟨10000, 2300, 12300⟩ : LineAmounts)].map (fun la => la.vat_grosze)).sum ∧
      (calculateInvoiceTotals [⟨10000, 2300, 12300⟩]).total_grosze =
        ([(⟨10000, 2300, 12300⟩ : LineAmounts)].map (fun la => la.gross_grosze)).sum ∧
      (calculateInvoiceTotals [⟨10000, 2300, 12300⟩]).total_grosze =
        (calculateInvoiceTotals [⟨10000, 2300, 12300⟩]).subtotal_grosze +
          (calculateInvoiceTotals [⟨10000, 2300, 12300⟩]).tax_grosze :=
  C2_calculateInvoiceTotals [⟨10000, 2300, 12300⟩] (by
    intro la hla
    rw [List.mem_singleton] at hla
    subst hla
    exact ⟨⟨sampleQuantity1, (10000 : Int), .v23⟩, by decide⟩) (by decide)

/-! ### Money round-trips (P1 and its inverse) -/

/-- The spec's canonicalisation of a money string: pad the fractional part
to two digits (an absent fraction becomes `00`). -/
def canonicalMoney (s : List Char) : List Char :=
  (splitDot s).1 ++ '.' :: jsPadEndTake 2 (((splitDot s).2).getD [])

/-- The string `00`: it matches the money pattern `D+(.DD?)?`. -/
def doubleZero : List Char := ['0', '0']

theorem natToDecChars_single {d : Nat} (h : d < 10) :
    natToDecChars d = [decDigitChar d] := by
  interval_cases d <;> decide

theorem two_digit_render {f : Nat} (h : f < 100) :
    jsPadStart 2 '0' (natToDecChars f) =
      [decDigitChar (f / 10), decDigitChar (f % 10)] := by
  interval_cases f <;> decide

theorem decValue_two (a b : Char) :
    decValue [a, b] = 10 * digitVal a + digitVal b := by
  rw [decValue_cons, decValue_cons, decValue_nil]
  simp [pow_succ]
  ring

/-- `plnToGrosze` on a pattern-matching string, written by its parts. -/
theorem plnToGrosze_of_parts {ip : List Char} {fr : Option (List Char)} {s : List Char}
    (hid : jsReplaceComma (jsTrim s) = s) (hpat : decPattern 2 s = true)
    (hsplit : splitDot s = (ip, fr)) (hip : ip.all isDigitChar = true)
    (hfr : (jsPadEndTake 2 (fr.getD [])).all isDigitChar = true) :
    plnToGrosze s =
      if decValue ip * 100 + decValue (jsPadEndTake 2 (fr.getD [])) > maxSafeInteger
      then none
      else some (decValue ip * 100 + decValue (jsPadEndTake 2 (fr.getD []))) := by
  rw [plnToGrosze, hid, if_pos hpat, hsplit]
  simp only [strToNat?, hip, hfr, ite_true]

/-- `groszeToPlnString` of a non-negative value, written by its parts. -/
theorem groszeToPlnString_natCast (g : Nat) :
    groszeToPlnString (g : Int) =
      natToDecChars (g / 100) ++ '.' :: jsPadStart 2 '0' (natToDecChars (g % 100)) := by
  rw [groszeToPlnString, if_neg (by simp [Int.not_lt, Int.natCast_nonneg])]
  simp [Int.natAbs_ofNat]

/-- C3 counterexample: the money string `00` matches `D+(.DD?)?`, parses to
0 grosze, but formatting gives `0.00`, not the canonicalised `00.00`. -/
theorem C3_money_roundtrip_cex :
    decPattern 2 doubleZero = true ∧ plnToGrosze doubleZero = some 0 ∧
      groszeToPlnString ((0 : Nat) : Int) ≠ canonicalMoney doubleZero := by
  decide

/-- C3 (amended): for a string matching the money pattern whose integer part
carries no superfluous leading zero, either parsing overflows
(`plnToGrosze` throws) or formatting the parsed value gives the
canonicalised string. -/
theorem C3_money_roundtrip (s : List Char)
    (hpat : decPattern 2 s = true)
    (hlz : (splitDot s).1 = ['0'] ∨ (splitDot s).1.head? ≠ some '0') :
    plnToGrosze s = none ∨
      ∃ g : Nat, plnToGrosze s = some g ∧
        groszeToPlnString (g : Int) = canonicalMoney s := by
  have hid := decPattern_trim_replace hpat
  rcases decPattern_cases hpat with ⟨hall, hne⟩ | ⟨ds, fs, rfl, hdne, hds, hfne, hfs, hlen⟩
  · have hsplit := splitDot_all_digits hall
    have hip : s.all isDigitChar = true := List.all_eq_true.mpr hall
    rw [plnToGrosze_of_parts hid hpat hsplit hip (by decide)]
    have hf0 : decValue (jsPadEndTake 2 ((none : Option (List Char)).getD [])) = 0 := by
      decide
    rw [hf0]
    by_cases hov : decValue s * 100 + 0 > maxSafeInteger
    · rw [if_pos hov]
      exact Or.inl rfl
    · rw [if_neg hov]
      refine Or.inr ⟨decValue s * 100 + 0, rfl, ?_⟩
      rw [groszeToPlnString_natCast]
      have hdiv : (decValue s * 100 + 0) / 100 = decValue s := by omega
      have hmod : (decValue s * 100 + 0) % 100 = 0 := by omega
      rw [hdiv, hmod, canonicalMoney, hsplit]
      have hlz' : s = ['0'] ∨ (s ≠ [] ∧ s.head? ≠ some '0') := by
        rw [hsplit] at hlz
        rcases hlz with h | h
        · exact Or.inl h
        · exact Or.inr ⟨hne, h⟩
      rw [natToDecChars_decValue hall hlz']
      simp only [Option.getD]
      congr 1
  · have hsplit := splitDot_append_digits hds hfs
    have hfr_eq : jsPadEndTake 2 fs = fs ++ List.replicate (2 - fs.length) '0' :=
      jsPadEndTake_of_le hlen
    have hfrd : ∀ c ∈ jsPadEndTake 2 fs, isDigitChar c = true := by
      intro c hc
      rw [hfr_eq] at hc
      rcases List.mem_append.mp hc with hc | hc
      · exact hfs c hc
      · rw [List.eq_of_mem_replicate hc]
        decide
    have hflen : (jsPadEndTake 2 fs).length = 2 := jsPadEndTake_length hlen
    obtain ⟨a, b, hab⟩ := List.length_eq_two.mp hflen
    have hip : ds.all isDigitChar = true := List.all_eq_true.mpr hds
    have hfr : (jsPadEndTake 2 fs).all isDigitChar = true := List.all_eq_true.mpr hfrd
    rw [plnToGrosze_of_parts hid hpat hsplit hip (by simpa using hfr)]
    simp only [Option.getD]
    have hflt : decValue (jsPadEndTake 2 fs) < 100 := by
      have := decValue_lt hfrd
      rw [hflen] at this
      simpa using this
    by_cases hov :
        decValue ds * 100 + decValue (jsPadEndTake 2 fs) > maxSafeInteger
    · rw [if_pos hov]
      exact Or.inl rfl
    · rw [if_neg hov]
      refine Or.inr ⟨decValue ds * 100 + decValue (jsPadEndTake 2 fs), rfl, ?_⟩
      rw [groszeToPlnString_natCast]
      have hdiv : (decValue ds * 100 + decValue (jsPadEndTake 2 fs)) / 100 =
          decValue ds := by omega
      have hmod : (decValue ds * 100 + decValue (jsPadEndTake 2 fs)) % 100 =
          decValue (jsPadEndTake 2 fs) := by omega
      rw [hdiv, hmod, two_digit_render hflt]
      have hlz' : ds = ['0'] ∨ (ds ≠ [] ∧ ds.head? ≠ some '0') := by
        rw [hsplit] at hlz
        rcases hlz with h | h
        · exact Or.inl h
        · exact Or.inr ⟨hdne, h⟩
      rw [natToDecChars_decValue hds hlz', canonicalMoney, hsplit]
      simp only [Option.getD]
      have hadig : isDigitChar a = true := hfrd a (by rw [hab]; exact List.mem_cons_self _ _)
      have hbdig : isDigitChar b = true := hfrd b (by
        rw [hab]
        exact List.mem_cons_of_mem _ (List.mem_cons_self _ _))
      have hfval : decValue (jsPadEndTake 2 fs) = 10 * digitVal a + digitVal b := by
        rw [hab, decValue_two]
      have hva := digitVal_lt_ten hadig
      have hvb := digitVal_lt_ten hbdig
      have h10 : decValue (jsPadEndTake 2 fs) / 10 = digitVal a := by omega
      have h10' : decValue (jsPadEndTake 2 fs) % 10 = digitVal b := by omega
      rw [h10, h10', decDigitChar_digitVal hadig, decDigitChar_digitVal hbdig, hab]

/-- C9: formatting then parsing is the identity on grosze values up to
`Number.MAX_SAFE_INTEGER`. -/
theorem C9_parse_format_inverse (g : Nat) (hg : g ≤ maxSafeInteger) :
    plnToGrosze (groszeToPlnString (g : Int)) = some g := by
  rw [groszeToPlnString_natCast]
  have hmod : g % 100 < 100 := Nat.mod_lt _ (by norm_num)
  have hBr : jsPadStart 2 '0' (natToDecChars (g % 100)) =
      [decDigitChar (g % 100 / 10), decDigitChar (g % 100 % 10)] :=
    two_digit_render hmod
  set A := natToDecChars (g / 100) with hAdef
  set B := jsPadStart 2 '0' (natToDecChars (g % 100)) with hBdef
  have hAd : ∀ c ∈ A, isDigitChar c = true := natToDecChars_all_digits _
  have hAne : A ≠ [] := natToDecChars_ne_nil _
  have hBd : ∀ c ∈ B, isDigitChar c = true := by
    rw [hBr]
    intro c hc
    rcases List.mem_cons.mp hc with rfl | hc
    · exact isDigitChar_decDigitChar (by omega)
    · rcases List.mem_cons.mp hc with rfl | hc
      · exact isDigitChar_decDigitChar (by omega)
      · cases hc
  have hchars : ∀ c ∈ A ++ '.' :: B, isDigitChar c = true ∨ c = '.' := by
    intro c hc
    rcases List.mem_append.mp hc with hc | hc
    · exact Or.inl (hAd c hc)
    · rcases List.mem_cons.mp hc with rfl | hc
      · exact Or.inr rfl
      · exact Or.inl (hBd c hc)
  have hid : jsReplaceComma (jsTrim (A ++ '.' :: B)) = A ++ '.' :: B := by
    rw [jsTrim_of_no_ws (fun c hc => by
      rcases hchars c hc with hd | rfl
      · exact isDigitChar_not_ws hd
      · decide)]
    exact jsReplaceComma_of_no_comma (fun c hc => by
      rcases hchars c hc with hd | rfl
      · exact isDigitChar_ne_comma hd
      · decide)
  have hBlen : B.length = 2 := by
    rw [hBr]
    rfl
  have hdotd : isDigitChar '.' = false := by decide
  have hpat : decPattern 2 (A ++ '.' :: B) = true := by
    rw [decPattern, takeWhile_append_cons hAd hdotd, dropWhile_append_cons hAd hdotd]
    simp only [List.head?_cons, List.tail_cons, beq_self_eq_true, Bool.true_and]
    rw [List.all_eq_true.mpr hBd |> fun h => h]
    simp [List.isEmpty_iff, hAne, hBlen, List.all_eq_true.mpr hBd]
    rw [hBr]
    simp
  have hsplit := splitDot_append_digits hAd hBd
  rw [plnToGrosze_of_parts hid hpat hsplit (List.all_eq_true.mpr hAd)
    (by
      simp only [Option.getD]
      rw [jsPadEndTake_of_le (le_of_eq hBlen), hBlen]
      simpa using List.all_eq_true.mpr hBd)]
  simp only [Option.getD]
  have hpe : jsPadEndTake 2 B = B := by
    rw [jsPadEndTake_of_le (le_of_eq hBlen), hBlen]
    simp
  rw [hpe]
  have hA : decValue A = g / 100 := decValue_natToDecChars _
  have hB : decValue B = g % 100 := by
    rw [hBr, decValue_two, digitVal_decDigitChar (by omega),
      digitVal_decDigitChar (by omega)]
    omega
  rw [hA, hB]
  have hsum : g / 100 * 100 + g % 100 = g := by omega
  rw [hsum, if_neg (by omega)]

/-- C9 witness: 12300 grosze formats to `123.00` and parses back. -/
theorem C9_parse_format_inverse_witness :
    plnToGrosze (groszeToPlnString ((12300 : Nat) : Int)) = some 12300 :=
  C9_parse_format_inverse 12300 (by decide)

/-- The money string `123.4`. -/
def sampleMoney : List Char := "123.4".toList

/-- C3 witness: the amended round-trip at `123.4`. -/
theorem C3_money_roundtrip_witness :
    plnToGrosze sampleMoney = none ∨
      ∃ g : Nat, plnToGrosze sampleMoney = some g ∧
        groszeToPlnString (g : Int) = canonicalMoney sampleMoney :=
  C3_money_roundtrip sampleMoney (by decide) (by decide)

/-! ### C10: quantity canonicalisation preserves the value -/

/-- `stripTrailingZeros` splits a string into its kept prefix and the
stripped run of `0`s. -/
theorem stripTrailingZeros_spec (l : List Char) :
    l = stripTrailingZeros l ++
      List.replicate (l.length - (stripTrailingZeros l).length) '0' := by
  rw [stripTrailingZeros]
  have hdecomp := (List.takeWhile_append_dropWhile (· == '0') l.reverse).symm
  have hrep : l.reverse.takeWhile (· == '0') =
      List.replicate (l.reverse.takeWhile (· == '0')).length '0' := by
    apply List.eq_replicate_of_mem
    intro c hc
    have := List.mem_takeWhile_imp hc
    simpa [beq_iff_eq] using this
  have hlen : l.length = (l.reverse.dropWhile (· == '0')).length +
      (l.reverse.takeWhile (· == '0')).length := by
    conv_lhs => rw [← List.length_reverse, hdecomp]
    rw [List.length_append]
    omega
  conv_lhs => rw [← List.reverse_reverse l, hdecomp]
  rw [List.reverse_append, List.length_reverse, hlen]
  congr 1
  rw [hrep, List.reverse_replicate, List.length_replicate]
  congr 1
  omega

theorem stripTrailingZeros_sublist_mem {l : List Char} {c : Char}
    (hc : c ∈ stripTrailingZeros l) : c ∈ l := by
  have h2 : c ∈ stripTrailingZeros l ++
      List.replicate (l.length - (stripTrailingZeros l).length) '0' :=
    List.mem_append.mpr (Or.inl hc)
  rwa [← stripTrailingZeros_spec l] at h2

theorem stripTrailingZeros_length_le (l : List Char) :
    (stripTrailingZeros l).length ≤ l.length := by
  conv_rhs => rw [stripTrailingZeros_spec l]
  rw [List.length_append]
  omega

/-- Re-padding the stripped fraction reconstructs it exactly. -/
theorem padEnd_stripTrailingZeros {l : List Char} {k : Nat} (h : l.length = k) :
    jsPadEndTake k (stripTrailingZeros l) = l := by
  have hle : (stripTrailingZeros l).length ≤ k := h ▸ stripTrailingZeros_length_le l
  rw [jsPadEndTake_of_le hle]
  conv_rhs => rw [stripTrailingZeros_spec l]
  congr 2
  omega

/-- `quantityToMilli` on a string whose trim/comma form is known, by parts. -/
theorem quantityToMilli_of_parts {ip : List Char} {fr : Option (List Char)}
    {s q : List Char} (hs : jsReplaceComma (jsTrim q) = s)
    (hsplit : splitDot s = (ip, fr)) (hip : ip.all isDigitChar = true)
    (hfr : (jsPadEndTake 3 (fr.getD [])).all isDigitChar = true) :
    quantityToMilli q =
      some (decValue ip * 1000 + decValue (jsPadEndTake 3 (fr.getD []))) := by
  rw [quantityToMilli, hs, hsplit]
  simp only [strToNat?, hip, hfr, ite_true]

/-- A digit-only string needs no trimming or comma replacement. -/
theorem trim_replace_id_of_digits_dot {l : List Char}
    (h : ∀ c ∈ l, isDigitChar c = true ∨ c = '.') :
    jsReplaceComma (jsTrim l) = l := by
  rw [jsTrim_of_no_ws (fun c hc => by
    rcases h c hc with hd | rfl
    · exact isDigitChar_not_ws hd
    · decide)]
  exact jsReplaceComma_of_no_comma (fun c hc => by
    rcases h c hc with hd | rfl
    · exact isDigitChar_ne_comma hd
    · decide)

/-- `quantityToMilli` of a rendered integer (no fractional part). -/
theorem quantityToMilli_natToDecChars (n : Nat) :
    quantityToMilli (natToDecChars n) = some (n * 1000 + 0) := by
  have hd := natToDecChars_all_digits n
  have h := quantityToMilli_of_parts (q := natToDecChars n)
    (trim_replace_id_of_digits_dot (fun c hc => Or.inl (hd c hc)))
    (splitDot_all_digits hd) (List.all_eq_true.mpr hd) (by decide)
  rw [h, decValue_natToDecChars]
  congr 1

/-- The quantity string `9007199254740993` (`2^53 + 1`). -/
def bigQuantity : List Char := "9007199254740993".toList

/-- C10 counterexample: `9007199254740993` matches the quantity pattern,
but `Number(intPart)` rounds it to the even double `9007199254740992`, so
the normalised string parses to a different milli-value than the input. -/
theorem C10_normalizeQuantity_preserves_cex :
    decPattern 3 (jsReplaceComma (jsTrim bigQuantity)) = true ∧
      (normalizeQuantity bigQuantity).bind quantityToMilli =
        some 9007199254740992000 ∧
      quantityToMilli bigQuantity = some 9007199254740993000 ∧
      (normalizeQuantity bigQuantity).bind quantityToMilli ≠
        quantityToMilli bigQuantity := by
  refine ⟨by decide, by decide, by decide, by decide⟩

/-- C10 (amended): quantity canonicalisation preserves the parsed value for
every string whose trimmed, comma-normalised form matches
`^\d+(\.\d{1,3})?$` and whose integer part denotes a value within
`Number.MAX_SAFE_INTEGER` (beyond it `Number(intPart)` rounds):
`quantityToMilli` of the `normalizeQuantity` output equals `quantityToMilli`
of the input. -/
theorem C10_normalizeQuantity_preserves (q : List Char)
    (hpat : decPattern 3 (jsReplaceComma (jsTrim q)) = true)
    (hsafe : decValue (splitDot (jsReplaceComma (jsTrim q))).1 ≤ maxSafeInteger) :
    (normalizeQuantity q).bind quantityToMilli = quantityToMilli q := by
  rw [normalizeQuantity, if_pos hpat]
  simp only [Option.some_bind]
  rcases decPattern_cases hpat with ⟨hall, hne⟩ | ⟨ds, fs, hseq, hdne, hds, hfne, hfs, hlen⟩
  · have hsplitq := splitDot_all_digits hall
    have hsafe' : decValue (jsReplaceComma (jsTrim q)) ≤ maxSafeInteger := by
      rw [hsplitq] at hsafe
      exact hsafe
    rw [hsplitq]
    simp only [Option.getD]
    have hred : stripTrailingZeros (jsPadEndTake 3 ([] : List Char)) = [] := by decide
    rw [hred]
    simp only [List.isEmpty_nil, ite_true]
    rw [roundToDoubleNat_exact hsafe', quantityToMilli_natToDecChars]
    have hrhs := quantityToMilli_of_parts rfl hsplitq
      (List.all_eq_true.mpr hall) (by decide)
    simp only [Option.getD] at hrhs
    rw [hrhs]
    have hz : decValue (jsPadEndTake 3 ([] : List Char)) = 0 := by decide
    rw [hz]
  · have hsplit := splitDot_append_digits hds hfs
    have hsafe' : decValue ds ≤ maxSafeInteger := by
      rw [hseq, hsplit] at hsafe
      exact hsafe
    rw [hseq, hsplit]
    simp only [Option.getD]
    rw [roundToDoubleNat_exact hsafe']
    have hfr_eq : jsPadEndTake 3 fs = fs ++ List.replicate (3 - fs.length) '0' :=
      jsPadEndTake_of_le hlen
    have hfrd : ∀ c ∈ jsPadEndTake 3 fs, isDigitChar c = true := by
      intro c hc
      rw [hfr_eq] at hc
      rcases List.mem_append.mp hc with hc | hc
      · exact hfs c hc
      · rw [List.eq_of_mem_replicate hc]
        decide
    have hflen : (jsPadEndTake 3 fs).length = 3 := jsPadEndTake_length hlen
    have hrhs := quantityToMilli_of_parts hseq hsplit (List.all_eq_true.mpr hds)
      (List.all_eq_true.mpr hfrd)
    simp only [Option.getD] at hrhs
    rw [hrhs]
    by_cases hempty : (stripTrailingZeros (jsPadEndTake 3 fs)).isEmpty = true
    · rw [if_pos hempty, quantityToMilli_natToDecChars]
      have hallz : ∀ c ∈ jsPadEndTake 3 fs, c = '0' := by
        intro c hc
        rw [stripTrailingZeros_spec (jsPadEndTake 3 fs),
          List.isEmpty_iff.mp hempty] at hc
        simp only [List.nil_append] at hc
        exact List.eq_of_mem_replicate hc
      rw [decValue_all_zero hallz]
    · rw [if_neg hempty]
      have hstrip_d : ∀ c ∈ stripTrailingZeros (jsPadEndTake 3 fs),
          isDigitChar c = true :=
        fun c hc => hfrd c (stripTrailingZeros_sublist_mem hc)
      have hndd := natToDecChars_all_digits (decValue ds)
      have hid2 : jsReplaceComma (jsTrim (natToDecChars (decValue ds) ++
          '.' :: stripTrailingZeros (jsPadEndTake 3 fs))) =
          natToDecChars (decValue ds) ++ '.' :: stripTrailingZeros (jsPadEndTake 3 fs) := by
        apply trim_replace_id_of_digits_dot
        intro c hc
        rcases List.mem_append.mp hc with hc | hc
        · exact Or.inl (hndd c hc)
        · rcases List.mem_cons.mp hc with rfl | hc
          · exact Or.inr rfl
          · exact Or.inl (hstrip_d c hc)
      have hsplit2 := splitDot_append_digits hndd hstrip_d
      have hlhs := quantityToMilli_of_parts hid2 hsplit2
        (List.all_eq_true.mpr hndd)
        (by
          simp only [Option.getD]
          rw [padEnd_stripTrailingZeros hflen]
          exact List.all_eq_true.mpr hfrd)
      simp only [Option.getD] at hlhs
      rw [hlhs, decValue_natToDecChars, padEnd_stripTrailingZeros hflen]

/-- The quantity string `007,250`. -/
def sampleQuantity007250 : List Char := "007,250".toList

/-- C10 witness: `007,250` normalises to `7.25` with the same value 7250. -/
theorem C10_normalizeQuantity_preserves_witness :
    (normalizeQuantity sampleQuantity007250).bind quantityToMilli =
      quantityToMilli sampleQuantity007250 :=
  C10_normalizeQuantity_preserves sampleQuantity007250 (by decide) (by decide)

/-! ### `src/lib/utils/invoice-numbering.ts` and the allocation in
`InvoiceService.createInvoice` -/

/-- `formatInvoiceNumber`: `FV/YYYY/MM/NNNN`, each part zero-padded
(`String(x).padStart(k, '0')`). -/
def formatInvoiceNumber (year month sequence : Nat) : List Char :=
  'F' :: 'V' :: '/' ::
    (jsPadStart 4 '0' (natToDecChars year) ++
      '/' :: (jsPadStart 2 '0' (natToDecChars month) ++
        '/' :: jsPadStart 4 '0' (natToDecChars sequence)))

/-- `parseYearMonth`: require `YYYY-MM-DD`, extract year (2000..9999) and
month (1..12). -/
def parseYearMonth (issueDate : List Char) : Option (Nat × Nat) :=
  match issueDate with
  | [y1, y2, y3, y4, h1, m1, m2, h2, d1, d2] =>
    if ([y1, y2, y3, y4, m1, m2, d1, d2].all isDigitChar && h1 == '-' && h2 == '-' : Bool)
    then
      if (2000 ≤ decValue [y1, y2, y3, y4] && decValue [y1, y2, y3, y4] ≤ 9999 &&
          1 ≤ decValue [m1, m2] && decValue [m1, m2] ≤ 12 : Bool)
      then some (decValue [y1, y2, y3, y4], decValue [m1, m2])
      else none
    else none
  | _ => none

/-- The `invoice_sequences` table: the stored `last_number` per
`(year, month)`; `none` = no row. -/
def SeqState : Type := Nat × Nat → Option Nat

/-- No sequence rows stored. -/
def emptySeqState : SeqState := fun _ => none

/-- The automatic allocation inlined in `InvoiceService.createInvoice`
(part_001 lines 114-128): read the `(year, month)` row,
`next := (last_number ?? 0) + 1`, upsert `last_number := next`, and format
the invoice number. -/
def allocateInvoiceNumber (st : SeqState) (year month : Nat) :
    List Char × SeqState :=
  (formatInvoiceNumber year month ((st (year, month)).getD 0 + 1),
    fun ym => if ym = (year, month) then some ((st (year, month)).getD 0 + 1)
      else st ym)

/-- The state after `k` successive automatic allocations in one
`(year, month)` bucket, starting from no stored rows. -/
def allocIter (year month : Nat) : Nat → SeqState
  | 0 => emptySeqState
  | k + 1 => (allocateInvoiceNumber (allocIter year month k) year month).2

theorem allocIter_same (year month : Nat) :
    ∀ k, allocIter year month k (year, month) = if k = 0 then none else some k
  | 0 => rfl
  | k + 1 => by
    rw [allocIter]
    show (if ((year, month) : Nat × Nat) = (year, month) then
        some ((allocIter year month k (year, month)).getD 0 + 1)
      else allocIter year month k (year, month)) = _
    rw [if_pos rfl, allocIter_same year month k]
    cases k with
    | zero => rfl
    | succ k => rfl

theorem allocIter_other (year month year' month' : Nat)
    (h : (year', month') ≠ (year, month)) :
    ∀ k, allocIter year month k (year', month') = none
  | 0 => rfl
  | k + 1 => by
    rw [allocIter]
    show (if ((year', month') : Nat × Nat) = (year, month) then
        some ((allocIter year month k (year, month)).getD 0 + 1)
      else allocIter year month k (year', month')) = _
    rw [if_neg h, allocIter_other year month year' month' h k]

/-- C4: starting from no stored sequence row, the `k+1`-st automatic
allocation in a fixed `(year, month)` bucket yields
`FV/YYYY/MM/NNNN` with sequence `k+1` (so the sequence of numbers is
strictly increasing from 1), stores `last_number = k+1`, and an allocation
in any other `(year, month)` bucket from that state starts again at 1. -/
theorem C4_invoice_numbering (year month k : Nat) :
    (allocateInvoiceNumber (allocIter year month k) year month).1 =
        formatInvoiceNumber year month (k + 1) ∧
      allocIter year month (k + 1) (year, month) = some (k + 1) ∧
      ∀ year' month', (year', month') ≠ (year, month) →
        (allocateInvoiceNumber (allocIter year month k) year' month').1 =
          formatInvoiceNumber year' month' 1 := by
  refine ⟨?_, ?_, ?_⟩
  · rw [allocateInvoiceNumber]
    simp only
    rw [allocIter_same year month k]
    cases k with
    | zero => rfl
    | succ k => rfl
  · rw [allocIter_same year month (k + 1), if_neg (Nat.succ_ne_zero k)]
  · intro year' month' h
    rw [allocateInvoiceNumber]
    simp only
    rw [allocIter_other year month year' month' h k]
    rfl

/-- C4 witness: the second allocation in (2026, 1) yields
`FV/2026/01/0002`, stores 2, and a fresh (2026, 2) allocation yields
`FV/2026/02/0001`. -/
theorem C4_invoice_numbering_witness :
    (allocateInvoiceNumber (allocIter 2026 1 1) 2026 1).1 =
        formatInvoiceNumber 2026 1 2 ∧
      allocIter 2026 1 2 (2026, 1) = some 2 ∧
      (allocateInvoiceNumber (allocIter 2026 1 1) 2026 2).1 =
        formatInvoiceNumber 2026 2 1 :=
  ⟨(C4_invoice_numbering 2026 1 1).1, (C4_invoice_numbering 2026 1 1).2.1,
    (C4_invoice_numbering 2026 1 1).2.2 2026 2 (by decide)⟩

/-! ### The invoice-number side of `InvoiceService.createInvoice` -/

/-- The state `createInvoice` touches when choosing a number: the stored
invoice numbers (the `invoices.invoice_number` column) and the
`invoice_sequences` table. -/
structure CreateState where
  invoiceNumbers : List (List Char)
  seqs : SeqState

/-- Errors of the creation transaction. -/
inductive CreateError where
  | conflict
  | validation
deriving DecidableEq, Repr

/-- The invoice-number handling of `InvoiceService.createInvoice`
(part_001 lines 104-214), projected onto the number and the sequence
state.  `data.invoice_number?.trim()` is taken; a non-empty result must be
unused (`SELECT 1 FROM invoices WHERE invoice_number = ?`; otherwise the
transaction throws a conflict) and is stored as-is, leaving
`invoice_sequences` untouched; an absent or empty-trimmed number falls to
the automatic path, which parses `(year, month)` from the issue date and
bumps the sequence.  An error models the rolled-back transaction.  Item
computation and the other inserted columns touch neither numbers nor
sequences and are omitted. -/
def createInvoiceModel (st : CreateState) (issueDate : List Char)
    (invoiceNumber : Option (List Char)) :
    Except CreateError (CreateState × List Char) :=
  if (invoiceNumber.map jsTrim).getD [] ≠ [] then
    if (invoiceNumber.map jsTrim).getD [] ∈ st.invoiceNumbers then .error .conflict
    else .ok (⟨(invoiceNumber.map jsTrim).getD [] :: st.invoiceNumbers, st.seqs⟩,
      (invoiceNumber.map jsTrim).getD [])
  else
    match parseYearMonth issueDate with
    | none => .error .validation
    | some (year, month) =>
      .ok (⟨(allocateInvoiceNumber st.seqs year month).1 :: st.invoiceNumbers,
        (allocateInvoiceNumber st.seqs year month).2⟩,
        (allocateInvoiceNumber st.seqs year month).1)

/-- A whitespace-only explicit invoice number. -/
def wsOnly : List Char := [' ']

/-- The issue date `2026-01-15`. -/
def date20260115 : List Char := "2026-01-15".toList

/-- C7 counterexample: `createInvoice` with the explicit invoice number
`" "` (empty after trimming) is not rejected: it succeeds through the
automatic path and bumps the (2026, 1) sequence counter. -/
theorem C7_explicit_number_cex :
    ∃ st' : CreateState, ∃ num : List Char,
      createInvoiceModel ⟨[], emptySeqState⟩ date20260115 (some wsOnly) =
          .ok (st', num) ∧
        st'.seqs (2026, 1) = some 1 ∧ emptySeqState (2026, 1) = none := by
  refine ⟨_, _, rfl, ?_, rfl⟩
  decide

/-- C7 (amended): an explicit number with a non-empty trimmed form is
trimmed and used as-is: a collision with a stored number fails with a
conflict (the transaction rolls back, leaving all state unchanged), and a
fresh number is stored with the sequence table unchanged.  An explicit
number that trims to empty is not rejected: it is treated as absent and
triggers automatic allocation, bumping the issue month's sequence. -/
theorem C7_explicit_number (st : CreateState) (issueDate num : List Char)
    (hne : jsTrim num ≠ []) :
    (jsTrim num ∈ st.invoiceNumbers →
        createInvoiceModel st issueDate (some num) = .error .conflict) ∧
      (jsTrim num ∉ st.invoiceNumbers →
        createInvoiceModel st issueDate (some num) =
          .ok (⟨jsTrim num :: st.invoiceNumbers, st.seqs⟩, jsTrim num)) := by
  constructor
  · intro hdup
    rw [createInvoiceModel]
    simp only [Option.map_some', Option.getD_some]
    rw [if_pos hne, if_pos hdup]
  · intro hdup
    rw [createInvoiceModel]
    simp only [Option.map_some', Option.getD_some]
    rw [if_pos hne, if_neg hdup]

/-- The explicit invoice number of the S5 scenario. -/
def sampleExplicitNumber : List Char := "FV/2026/01/0001".toList

/-- C7 witness: creating with the fresh explicit number `FV/2026/01/0001`
stores it and leaves the sequence state unchanged. -/
theorem C7_explicit_number_witness :
    createInvoiceModel ⟨[], emptySeqState⟩ date20260115 (some sampleExplicitNumber) =
      .ok (⟨jsTrim sampleExplicitNumber :: [], emptySeqState⟩,
        jsTrim sampleExplicitNumber) :=
  (C7_explicit_number ⟨[], emptySeqState⟩ date20260115 sampleExplicitNumber
    (by decide)).2 (by decide)

/-! ### `InvoiceService.updateInvoice` and the invoice number of issued
invoices -/

/-- Invoice status (`'draft' | 'issued' | 'cancelled'`). -/
inductive InvoiceStatus where
  | draft
  | issued
  | cancelled
deriving DecidableEq, Repr

/-- An invoice row, projected onto the columns the number-immutability
claim concerns. -/
structure InvoiceRec where
  id : Nat
  invoice_number : List Char
  status : InvoiceStatus
deriving DecidableEq, Repr

/-- Errors of the update transaction. -/
inductive UpdateError where
  | notFound
  | conflict
deriving DecidableEq, Repr

/-- `InvoiceService.updateInvoice` (part_001 lines 216-319), projected onto
`(id, invoice_number, status)`: load the row (else not-found);
`invoiceNumber := data.invoice_number?.trim() || existing.invoice_number`;
if it differs from the current number, reject a duplicate held by another
invoice; then rewrite the row with the (possibly new) number and the merged
status.  No status is checked anywhere.  Items and the other merged columns
do not interact with the invoice number and are omitted. -/
def updateInvoice (invoices : List InvoiceRec) (id : Nat)
    (data_number : Option (List Char)) (data_status : Option InvoiceStatus) :
    Except UpdateError (List InvoiceRec × InvoiceRec) :=
  match invoices.find? (fun r => r.id == id) with
  | none => .error .notFound
  | some existing =>
    if (match data_number with
        | some s => if jsTrim s = [] then existing.invoice_number else jsTrim s
        | none => existing.invoice_number) ≠ existing.invoice_number ∧
        (∃ other ∈ invoices, other.id ≠ id ∧ other.invoice_number =
          (match data_number with
           | some s => if jsTrim s = [] then existing.invoice_number else jsTrim s
           | none => existing.invoice_number)) then
      .error .conflict
    else
      .ok (invoices.map (fun r => if r.id = id then
          ⟨existing.id,
            (match data_number with
             | some s => if jsTrim s = [] then existing.invoice_number else jsTrim s
             | none => existing.invoice_number),
            data_status.getD existing.status⟩ else r),
        ⟨existing.id,
          (match data_number with
           | some s => if jsTrim s = [] then existing.invoice_number else jsTrim s
           | none => existing.invoice_number),
          data_status.getD existing.status⟩)

/-- A second invoice number, distinct from `sampleExplicitNumber`. -/
def otherNumber : List Char := "FV/2026/01/0002".toList

/-- C5 counterexample: `updateInvoice` on an invoice whose status is
`issued`, given a fresh distinct number, succeeds and changes the
invoice number: the service does have an operation that changes the
number of an issued invoice. -/
theorem C5_issued_number_cex :
    updateInvoice [⟨1, sampleExplicitNumber, .issued⟩] 1 (some otherNumber) none =
        .ok ([⟨1, otherNumber, .issued⟩], ⟨1, otherNumber, .issued⟩) ∧
      otherNumber ≠ sampleExplicitNumber := by
  exact ⟨by rfl, by decide⟩

/-- C5 (amended): `updateInvoice` never consults the status: the
invoice_number of an invoice, issued or not, is preserved by every update
that supplies no number or an empty-trimmed number, and the only guard on
an explicit change is uniqueness: a non-empty trimmed number distinct from
the current one that another invoice already holds fails with a conflict.
(Immutability as stated fails: a fresh distinct number is accepted even on
an issued invoice.) -/
theorem C5_issued_number_update (invoices : List InvoiceRec) (id : Nat)
    (ds : Option InvoiceStatus) (existing : InvoiceRec)
    (hfind : invoices.find? (fun r => r.id == id) = some existing) :
    (∀ st' r, updateInvoice invoices id none ds = .ok (st', r) →
        r.invoice_number = existing.invoice_number) ∧
      (∀ s, jsTrim s = [] →
        ∀ st' r, updateInvoice invoices id (some s) ds = .ok (st', r) →
          r.invoice_number = existing.invoice_number) ∧
      (∀ s, jsTrim s ≠ [] → jsTrim s ≠ existing.invoice_number →
        (∃ other ∈ invoices, other.id ≠ id ∧ other.invoice_number = jsTrim s) →
        updateInvoice invoices id (some s) ds = .error .conflict) := by
  refine ⟨?_, ?_, ?_⟩
  · intro st' r h
    rw [updateInvoice, hfind] at h
    simp only at h
    rw [if_neg (by simp)] at h
    simp only [Except.ok.injEq, Prod.mk.injEq] at h
    rw [← h.2]
  · intro s hs st' r h
    rw [updateInvoice, hfind] at h
    simp only [hs, ite_true] at h
    rw [if_neg (by simp)] at h
    simp only [Except.ok.injEq, Prod.mk.injEq] at h
    rw [← h.2]
  · intro s hs hne hdup
    rw [updateInvoice, hfind]
    simp only [hs, ite_false]
    rw [if_pos ⟨hne, hdup⟩]

/-- C5 witness: updating the issued invoice to a number already used by
another invoice fails with a conflict. -/
theorem C5_issued_number_update_witness :
    updateInvoice [⟨1, sampleExplicitNumber, .issued⟩, ⟨2, otherNumber, .draft⟩]
        1 (some otherNumber) none = .error .conflict :=
  (C5_issued_number_update
      [⟨1, sampleExplicitNumber, .issued⟩, ⟨2, otherNumber, .draft⟩] 1 none
      ⟨1, sampleExplicitNumber, .issued⟩ (by decide)).2.2
    otherNumber (by decide) (by decide) (by decide)

/-! ### `src/lib/utils/invoice-files.ts` -/

/-- The file extensions accepted by `sanitizeFilenameFromInvoiceNumber`. -/
inductive FileExt where
  | xml
  | pdf
deriving DecidableEq, Repr

/-- The characters of an extension. -/
def extChars : FileExt → List Char
  | .xml => ['x', 'm', 'l']
  | .pdf => ['p', 'd', 'f']

/-- `/` or `\`, the class of the regex `[\\/]+`. -/
def isSlashChar (c : Char) : Bool :=
  c == '/' || c == '\\'

/-- The class `[a-zA-Z0-9._-]` kept by the sanitiser. -/
def isFilenameSafeChar (c : Char) : Bool :=
  (97 ≤ c.toNat && c.toNat ≤ 122) || (65 ≤ c.toNat && c.toNat ≤ 90) ||
    (48 ≤ c.toNat && c.toNat ≤ 57) || c == '.' || c == '_' || c == '-'

/-- A dash (the class of `-+`). -/
def isDashChar (c : Char) : Bool :=
  c == '-'

/-- The class `[._-]` stripped from the edges. -/
def isEdgeTrimChar (c : Char) : Bool :=
  c == '.' || c == '_' || c == '-'

/-- Auxiliary for `collapseRuns`: the flag records whether the previous
character was part of a run being replaced. -/
def collapseRunsAux (p : Char → Bool) (r : Char) : Bool → List Char → List Char
  | _, [] => []
  | inRun, c :: cs =>
    if p c then
      if inRun then collapseRunsAux p r true cs
      else r :: collapseRunsAux p r true cs
    else c :: collapseRunsAux p r false cs

/-- JS `s.replace(/[class]+/g, r)` for a single-character replacement:
every maximal run of characters in the class becomes one `r`. -/
def collapseRuns (p : Char → Bool) (r : Char) (l : List Char) : List Char :=
  collapseRunsAux p r false l

/-- JS `s.replace(/^[._-]+|[._-]+$/g, '')`: strip the leading and trailing
runs of `.`, `_`, `-`. -/
def stripEdges (l : List Char) : List Char :=
  ((l.dropWhile isEdgeTrimChar).reverse.dropWhile isEdgeTrimChar).reverse

/-- JS `hay.includes(needle)`: substring search. -/
def listStartsWith : List Char → List Char → Bool
  | _, [] => true
  | [], _ :: _ => false
  | h :: t, n :: ns => h == n && listStartsWith t ns

def jsIncludes : List Char → List Char → Bool
  | hay, needle =>
    listStartsWith hay needle ||
      match hay with
      | [] => false
      | _ :: t => jsIncludes t needle

/-- Errors thrown by the filename layer. -/
inductive FileError where
  | emptyNumber
  | invalid
deriving DecidableEq, Repr

/-- `assertSafeFilename`: reject empty or overlong names, path separators,
`..`, and absolute paths (POSIX `path.isAbsolute`: a leading `/`). -/
def assertSafeFilename (name : List Char) : Except FileError Unit :=
  if name = [] ∨ name.length > 255 then .error .invalid
  else if name.contains '/' || name.contains '\\' then .error .invalid
  else if jsIncludes name ['.', '.'] then .error .invalid
  else if name.head? = some '/' then .error .invalid
  else .ok ()

/-- The sanitised stem: slashes and backslashes to dashes, every other run
of characters outside `[a-zA-Z0-9._-]` to a dash, dash runs collapsed,
edges stripped. -/
def sanitizedStem (invoiceNumber : List Char) : List Char :=
  stripEdges (collapseRuns isDashChar '-'
    (collapseRuns (fun c => !isFilenameSafeChar c) '-'
      (collapseRuns isSlashChar '-' (jsTrim invoiceNumber))))

/-- `sanitizeFilenameFromInvoiceNumber`: trim, reject empty, sanitise,
append the extension and re-check with `assertSafeFilename`. -/
def sanitizeFilenameFromInvoiceNumber (invoiceNumber : List Char)
    (ext : FileExt) : Except FileError (List Char) :=
  if jsTrim invoiceNumber = [] then .error .emptyNumber
  else
    match assertSafeFilename (sanitizedStem invoiceNumber ++ '.' :: extChars ext) with
    | .error e => .error e
    | .ok _ => .ok (sanitizedStem invoiceNumber ++ '.' :: extChars ext)

/-- The UTF-8 size in bytes of one character. -/
def charUtf8Bytes (c : Char) : Nat :=
  if c.toNat ≤ 0x7F then 1
  else if c.toNat ≤ 0x7FF then 2
  else if c.toNat ≤ 0xFFFF then 3
  else 4

/-- The UTF-8 size in bytes of a string. -/
def utf8Length (l : List Char) : Nat :=
  (l.map charUtf8Bytes).sum

theorem collapseRunsAux_mem {p : Char → Bool} {r : Char} :
    ∀ {b : Bool} {l : List Char} {c : Char}, c ∈ collapseRunsAux p r b l →
      c = r ∨ (c ∈ l ∧ p c = false)
  | b, [], c, h => absurd h (List.not_mem_nil c)
  | b, a :: as, c, h => by
    rw [collapseRunsAux] at h
    by_cases hp : p a = true
    · rw [if_pos hp] at h
      cases b with
      | true =>
        rw [if_pos rfl] at h
        rcases collapseRunsAux_mem h with h' | ⟨h1, h2⟩
        · exact Or.inl h'
        · exact Or.inr ⟨List.mem_cons_of_mem _ h1, h2⟩
      | false =>
        rw [if_neg (by decide)] at h
        rcases List.mem_cons.mp h with rfl | h'
        · exact Or.inl rfl
        · rcases collapseRunsAux_mem h' with h'' | ⟨h1, h2⟩
          · exact Or.inl h''
          · exact Or.inr ⟨List.mem_cons_of_mem _ h1, h2⟩
    · rw [if_neg hp] at h
      rcases List.mem_cons.mp h with rfl | h'
      · exact Or.inr ⟨List.mem_cons_self _ _, Bool.eq_false_iff.mpr hp⟩
      · rcases collapseRunsAux_mem h' with h'' | ⟨h1, h2⟩
        · exact Or.inl h''
        · exact Or.inr ⟨List.mem_cons_of_mem _ h1, h2⟩

theorem stripEdges_mem {l : List Char} {c : Char} (h : c ∈ stripEdges l) :
    c ∈ l := by
  rw [stripEdges, List.mem_reverse] at h
  have h1 : c ∈ (l.dropWhile isEdgeTrimChar).reverse :=
    List.Sublist.mem h (List.dropWhile_sublist _)
  rw [List.mem_reverse] at h1
  exact List.Sublist.mem h1 (List.dropWhile_sublist _)

theorem assertSafeFilename_ok {name : List Char}
    (h : assertSafeFilename name = .ok ()) :
    name ≠ [] ∧ name.length ≤ 255 ∧ name.contains '/' = false ∧
      name.contains '\\' = false ∧ jsIncludes name ['.', '.'] = false ∧
      name.head? ≠ some '/' := by
  rw [assertSafeFilename] at h
  by_cases h1 : name = [] ∨ name.length > 255
  · rw [if_pos h1] at h
    cases h
  · rw [if_neg h1] at h
    push_neg at h1
    by_cases h2 : (name.contains '/' || name.contains '\\') = true
    · rw [if_pos h2] at h
      cases h
    · rw [if_neg h2] at h
      rw [Bool.or_eq_true] at h2
      push_neg at h2
      by_cases h3 : jsIncludes name ['.', '.'] = true
      · rw [if_pos h3] at h
        cases h
      · rw [if_neg h3] at h
        by_cases h4 : name.head? = some '/'
        · rw [if_pos h4] at h
          cases h
        · exact ⟨h1.1, by omega, Bool.eq_false_iff.mpr h2.1,
            Bool.eq_false_iff.mpr h2.2, Bool.eq_false_iff.mpr h3, h4⟩

theorem isFilenameSafeChar_ascii {c : Char} (h : isFilenameSafeChar c = true) :
    charUtf8Bytes c = 1 := by
  rw [isFilenameSafeChar] at h
  simp only [Bool.or_eq_true, Bool.and_eq_true, decide_eq_true_eq, beq_iff_eq] at h
  rw [charUtf8Bytes, if_pos]
  rcases h with ((((h | h) | h) | rfl) | rfl) | rfl <;> first | omega | decide

theorem sanitizedStem_ascii {invoiceNumber : List Char} {c : Char}
    (h : c ∈ sanitizedStem invoiceNumber) : charUtf8Bytes c = 1 := by
  have h1 := stripEdges_mem h
  rcases collapseRunsAux_mem h1 with rfl | ⟨h2, _⟩
  · decide
  · rcases collapseRunsAux_mem h2 with rfl | ⟨_, h3⟩
    · decide
    · have h4 : isFilenameSafeChar c = true := by
        cases hb : isFilenameSafeChar c with
        | true => rfl
        | false => rw [hb] at h3; cases h3
      exact isFilenameSafeChar_ascii h4

theorem utf8Length_of_ascii :
    ∀ {l : List Char}, (∀ c ∈ l, charUtf8Bytes c = 1) → utf8Length l = l.length
  | [], _ => rfl
  | c :: cs, h => by
    rw [utf8Length, List.map_cons, List.sum_cons, h c (List.mem_cons_self _ _),
      List.length_cons, ← utf8Length]
    rw [utf8Length_of_ascii (fun x hx => h x (List.mem_cons_of_mem _ hx))]
    omega

/-- The filename produced for `FV/2026/01/0001` with extension `xml`. -/
def sampleXmlFilename : List Char := "FV-2026-01-0001.xml".toList

/-- C6: when `sanitizeFilenameFromInvoiceNumber` does not throw, the
returned filename is non-empty, at most 255 characters and at most 255
UTF-8 bytes, contains no `/` or `\`, contains no `..`, and is not an
absolute path; and `FV/2026/01/0001` with extension `xml` yields
`FV-2026-01-0001.xml`. -/
theorem C6_sanitizeFilename (invoiceNumber : List Char) (ext : FileExt)
    (f : List Char)
    (h : sanitizeFilenameFromInvoiceNumber invoiceNumber ext = .ok f) :
    (f ≠ [] ∧ f.length ≤ 255 ∧ utf8Length f ≤ 255 ∧
        f.contains '/' = false ∧ f.contains '\\' = false ∧
        jsIncludes f ['.', '.'] = false ∧ f.head? ≠ some '/') ∧
      sanitizeFilenameFromInvoiceNumber sampleExplicitNumber .xml =
        .ok sampleXmlFilename := by
  constructor
  · rw [sanitizeFilenameFromInvoiceNumber] at h
    by_cases h0 : jsTrim invoiceNumber = []
    · rw [if_pos h0] at h
      cases h
    · rw [if_neg h0] at h
      cases hassert : assertSafeFilename
          (sanitizedStem invoiceNumber ++ '.' :: extChars ext) with
      | error e =>
        rw [hassert] at h
        cases h
      | ok u =>
        rw [hassert] at h
        simp only [Except.ok.injEq] at h
        subst h
        cases u
        obtain ⟨hne, hlen, hs1, hs2, hdd, habs⟩ := assertSafeFilename_ok hassert
        have hascii : ∀ c ∈ sanitizedStem invoiceNumber ++ '.' :: extChars ext,
            charUtf8Bytes c = 1 := by
          intro c hc
          rcases List.mem_append.mp hc with hc | hc
          · exact sanitizedStem_ascii hc
          · rcases List.mem_cons.mp hc with rfl | hc
            · decide
            · cases ext <;> simp only [extChars, List.mem_cons,
                List.not_mem_nil, or_false] at hc <;>
                rcases hc with rfl | rfl | rfl <;> decide
        exact ⟨hne, hlen, by rw [utf8Length_of_ascii hascii]; exact hlen,
          hs1, hs2, hdd, habs⟩
  · rfl

/-- C6 witness: the sample filename satisfies every safety condition. -/
theorem C6_sanitizeFilename_witness :
    (sampleXmlFilename ≠ [] ∧ sampleXmlFilename.length ≤ 255 ∧
        utf8Length sampleXmlFilename ≤ 255 ∧
        sampleXmlFilename.contains '/' = false ∧
        sampleXmlFilename.contains '\\' = false ∧
        jsIncludes sampleXmlFilename ['.', '.'] = false ∧
        sampleXmlFilename.head? ≠ some '/') ∧
      sanitizeFilenameFromInvoiceNumber sampleExplicitNumber .xml =
        .ok sampleXmlFilename :=
  C6_sanitizeFilename sampleExplicitNumber .xml sampleXmlFilename (by rfl)

/-! ### `src/lib/utils/ksef-fa3-xml.ts`: per-VAT-rate totals -/

/-- An invoice item as read by the XML generator. -/
structure XmlItem where
  net_grosze : Int
  vat_grosze : Int
  vat_rate : VatRate
deriving DecidableEq, Repr

/-- The nine accumulators of `sumByVat`. -/
structure VatSums where
  net23 : Int
  vat23 : Int
  net8 : Int
  vat8 : Int
  net5 : Int
  vat5 : Int
  net0 : Int
  netZw : Int
  netNp : Int
deriving DecidableEq, Repr

/-- One loop iteration of `sumByVat`. -/
def sumByVatStep (acc : VatSums) (it : XmlItem) : VatSums :=
  match it.vat_rate with
  | .v23 => { acc with net23 := acc.net23 + it.net_grosze, vat23 := acc.vat23 + it.vat_grosze }
  | .v8 => { acc with net8 := acc.net8 + it.net_grosze, vat8 := acc.vat8 + it.vat_grosze }
  | .v5 => { acc with net5 := acc.net5 + it.net_grosze, vat5 := acc.vat5 + it.vat_grosze }
  | .v0 => { acc with net0 := acc.net0 + it.net_grosze }
  | .zw => { acc with netZw := acc.netZw + it.net_grosze }
  | .np => { acc with netNp := acc.netNp + it.net_grosze }

/-- `sumByVat`: the for-loop over the items. -/
def sumByVat (items : List XmlItem) : VatSums :=
  items.foldl sumByVatStep ⟨0, 0, 0, 0, 0, 0, 0, 0, 0⟩

/-- The tags of the optional VAT-totals block of the `Fa` element. -/
inductive Fa3Tag where
  | P_13_1
  | P_14_1
  | P_13_2
  | P_14_2
  | P_13_3
  | P_14_3
  | P_13_6_1
  | P_13_7
  | P_13_8
deriving DecidableEq, Repr

/-- The optional VAT-totals block of `generateFa3Xml` (lines 208-225): the
`(tag, formatted value)` pairs pushed into the document, in order.  A JS
`if (x || y)` on numbers is the non-zero test. -/
def fa3VatTotalTags (items : List XmlItem) : List (Fa3Tag × List Char) :=
  (if (sumByVat items).net23 ≠ 0 ∨ (sumByVat items).vat23 ≠ 0 then
    [(.P_13_1, groszeToPlnString (sumByVat items).net23),
      (.P_14_1, groszeToPlnString (sumByVat items).vat23)]
  else []) ++
  (if (sumByVat items).net8 ≠ 0 ∨ (sumByVat items).vat8 ≠ 0 then
    [(.P_13_2, groszeToPlnString (sumByVat items).net8),
      (.P_14_2, groszeToPlnString (sumByVat items).vat8)]
  else []) ++
  (if (sumByVat items).net5 ≠ 0 ∨ (sumByVat items).vat5 ≠ 0 then
    [(.P_13_3, groszeToPlnString (sumByVat items).net5),
      (.P_14_3, groszeToPlnString (sumByVat items).vat5)]
  else []) ++
  (if (sumByVat items).net0 ≠ 0 then
    [(.P_13_6_1, groszeToPlnString (sumByVat items).net0)]
  else []) ++
  (if (sumByVat items).netZw ≠ 0 then
    [(.P_13_7, groszeToPlnString (sumByVat items).netZw)]
  else []) ++
  (if (sumByVat items).netNp ≠ 0 then
    [(.P_13_8, groszeToPlnString (sumByVat items).netNp)]
  else [])

/-- The document emits a tag of the VAT-totals block. -/
def emitsTag (items : List XmlItem) (t : Fa3Tag) : Bool :=
  (fa3VatTotalTags items).any (fun p => decide (p.1 = t))

theorem foldl_sumByVat_no23 :
    ∀ (items : List XmlItem) (acc : VatSums),
      (∀ it ∈ items, it.vat_rate ≠ .v23) →
      (items.foldl sumByVatStep acc).net23 = acc.net23 ∧
        (items.foldl sumByVatStep acc).vat23 = acc.vat23
  | [], _, _ => ⟨rfl, rfl⟩
  | it :: rest, acc, h => by
    rw [List.foldl_cons]
    have hstep : (sumByVatStep acc it).net23 = acc.net23 ∧
        (sumByVatStep acc it).vat23 = acc.vat23 := by
      rw [sumByVatStep]
      cases hr : it.vat_rate
      case v23 => exact absurd hr (h it (List.mem_cons_self _ _))
      all_goals exact ⟨rfl, rfl⟩
    have hrec := foldl_sumByVat_no23 rest (sumByVatStep acc it)
      (fun x hx => h x (List.mem_cons_of_mem _ hx))
    exact ⟨by rw [hrec.1, hstep.1], by rw [hrec.2, hstep.2]⟩

theorem foldl_sumByVat_no8 :
    ∀ (items : List XmlItem) (acc : VatSums),
      (∀ it ∈ items, it.vat_rate ≠ .v8) →
      (items.foldl sumByVatStep acc).net8 = acc.net8 ∧
        (items.foldl sumByVatStep acc).vat8 = acc.vat8
  | [], _, _ => ⟨rfl, rfl⟩
  | it :: rest, acc, h => by
    rw [List.foldl_cons]
    have hstep : (sumByVatStep acc it).net8 = acc.net8 ∧
        (sumByVatStep acc it).vat8 = acc.vat8 := by
      rw [sumByVatStep]
      cases hr : it.vat_rate
      case v8 => exact absurd hr (h it (List.mem_cons_self _ _))
      all_goals exact ⟨rfl, rfl⟩
    have hrec := foldl_sumByVat_no8 rest (sumByVatStep acc it)
      (fun x hx => h x (List.mem_cons_of_mem _ hx))
    exact ⟨by rw [hrec.1, hstep.1], by rw [hrec.2, hstep.2]⟩

theorem foldl_sumByVat_no5 :
    ∀ (items : List XmlItem) (acc : VatSums),
      (∀ it ∈ items, it.vat_rate ≠ .v5) →
      (items.foldl sumByVatStep acc).net5 = acc.net5 ∧
        (items.foldl sumByVatStep acc).vat5 = acc.vat5
  | [], _, _ => ⟨rfl, rfl⟩
  | it :: rest, acc, h => by
    rw [List.foldl_cons]
    have hstep : (sumByVatStep acc it).net5 = acc.net5 ∧
        (sumByVatStep acc it).vat5 = acc.vat5 := by
      rw [sumByVatStep]
      cases hr : it.vat_rate
      case v5 => exact absurd hr (h it (List.mem_cons_self _ _))
      all_goals exact ⟨rfl, rfl⟩
    have hrec := foldl_sumByVat_no5 rest (sumByVatStep acc it)
      (fun x hx => h x (List.mem_cons_of_mem _ hx))
    exact ⟨by rw [hrec.1, hstep.1], by rw [hrec.2, hstep.2]⟩

theorem any_ite_block {c : Prop} [Decidable c] (L : List (Fa3Tag × List Char))
    (f : Fa3Tag × List Char → Bool) :
    (if c then L else []).any f = (decide c && L.any f) := by
  split
  · rename_i h
    simp [h]
  · rename_i h
    simp [h]

theorem emitsTag_13_1 (items : List XmlItem) :
    emitsTag items .P_13_1 =
      decide ((sumByVat items).net23 ≠ 0 ∨ (sumByVat items).vat23 ≠ 0) := by
  rw [emitsTag, fa3VatTotalTags]
  simp only [List.any_append, any_ite_block, List.any_cons, List.any_nil]
  simp

theorem emitsTag_14_1 (items : List XmlItem) :
    emitsTag items .P_14_1 =
      decide ((sumByVat items).net23 ≠ 0 ∨ (sumByVat items).vat23 ≠ 0) := by
  rw [emitsTag, fa3VatTotalTags]
  simp only [List.any_append, any_ite_block, List.any_cons, List.any_nil]
  simp

theorem emitsTag_13_2 (items : List XmlItem) :
    emitsTag items .P_13_2 =
      decide ((sumByVat items).net8 ≠ 0 ∨ (sumByVat items).vat8 ≠ 0) := by
  rw [emitsTag, fa3VatTotalTags]
  simp only [List.any_append, any_ite_block, List.any_cons, List.any_nil]
  simp

theorem emitsTag_14_2 (items : List XmlItem) :
    emitsTag items .P_14_2 =
      decide ((sumByVat items).net8 ≠ 0 ∨ (sumByVat items).vat8 ≠ 0) := by
  rw [emitsTag, fa3VatTotalTags]
  simp only [List.any_append, any_ite_block, List.any_cons, List.any_nil]
  simp

theorem emitsTag_13_3 (items : List XmlItem) :
    emitsTag items .P_13_3 =
      decide ((sumByVat items).net5 ≠ 0 ∨ (sumByVat items).vat5 ≠ 0) := by
  rw [emitsTag, fa3VatTotalTags]
  simp only [List.any_append, any_ite_block, List.any_cons, List.any_nil]
  simp

theorem emitsTag_14_3 (items : List XmlItem) :
    emitsTag items .P_14_3 =
      decide ((sumByVat items).net5 ≠ 0 ∨ (sumByVat items).vat5 ≠ 0) := by
  rw [emitsTag, fa3VatTotalTags]
  simp only [List.any_append, any_ite_block, List.any_cons, List.any_nil]
  simp

/-- The counterexample invoice: a 23 % item with zero amounts and a normal
8 % item; no 5 % item. -/
def cexItems : List XmlItem := [⟨0, 0, .v23⟩, ⟨20000, 1600, .v8⟩]

/-- C8 counterexample: an invoice containing a 23 % item and an 8 % item
and no 5 % item for which the 23 % pair `P_13_1`/`P_14_1` is NOT emitted
(the 23 % item has zero net and VAT, and the generator tests the sums for
truthiness, not the presence of the rate). -/
theorem C8_fa3_vat_totals_cex :
    (∃ it ∈ cexItems, it.vat_rate = .v23) ∧
      (∃ it ∈ cexItems, it.vat_rate = .v8) ∧
      (∀ it ∈ cexItems, it.vat_rate ≠ .v5) ∧
      emitsTag cexItems .P_13_2 = true ∧ emitsTag cexItems .P_14_2 = true ∧
      emitsTag cexItems .P_13_3 = false ∧ emitsTag cexItems .P_14_3 = false ∧
      emitsTag cexItems .P_13_1 = false ∧ emitsTag cexItems .P_14_1 = false := by
  decide

/-- C8 (amended): each per-rate pair `P_13_x`/`P_14_x` is emitted only if
some item uses the corresponding rate, and it is emitted exactly when the
rate's summed net or summed VAT is non-zero (so an invoice whose 23 % and
8 % sums are non-zero and which has no 5 % item emits the first two pairs
and omits the third). -/
theorem C8_fa3_vat_totals (items : List XmlItem) :
    (emitsTag items .P_13_1 = true → ∃ it ∈ items, it.vat_rate = .v23) ∧
      (emitsTag items .P_14_1 = true → ∃ it ∈ items, it.vat_rate = .v23) ∧
      (emitsTag items .P_13_2 = true → ∃ it ∈ items, it.vat_rate = .v8) ∧
      (emitsTag items .P_14_2 = true → ∃ it ∈ items, it.vat_rate = .v8) ∧
      (emitsTag items .P_13_3 = true → ∃ it ∈ items, it.vat_rate = .v5) ∧
      (emitsTag items .P_14_3 = true → ∃ it ∈ items, it.vat_rate = .v5) ∧
      (emitsTag items .P_13_1 = true ↔
        ((sumByVat items).net23 ≠ 0 ∨ (sumByVat items).vat23 ≠ 0)) ∧
      (emitsTag items .P_13_2 = true ↔
        ((sumByVat items).net8 ≠ 0 ∨ (sumByVat items).vat8 ≠ 0)) ∧
      (emitsTag items .P_13_3 = true ↔
        ((sumByVat items).net5 ≠ 0 ∨ (sumByVat items).vat5 ≠ 0)) := by
  have h231 : emitsTag items .P_13_1 = true ↔
      ((sumByVat items).net23 ≠ 0 ∨ (sumByVat items).vat23 ≠ 0) := by
    rw [emitsTag_13_1]
    exact decide_eq_true_iff
  have h232 : emitsTag items .P_14_1 = true ↔
      ((sumByVat items).net23 ≠ 0 ∨ (sumByVat items).vat23 ≠ 0) := by
    rw [emitsTag_14_1]
    exact decide_eq_true_iff
  have h81 : emitsTag items .P_13_2 = true ↔
      ((sumByVat items).net8 ≠ 0 ∨ (sumByVat items).vat8 ≠ 0) := by
    rw [emitsTag_13_2]
    exact decide_eq_true_iff
  have h82 : emitsTag items .P_14_2 = true ↔
      ((sumByVat items).net8 ≠ 0 ∨ (sumByVat items).vat8 ≠ 0) := by
    rw [emitsTag_14_2]
    exact decide_eq_true_iff
  have h51 : emitsTag items .P_13_3 = true ↔
      ((sumByVat items).net5 ≠ 0 ∨ (sumByVat items).vat5 ≠ 0) := by
    rw [emitsTag_13_3]
    exact decide_eq_true_iff
  have h52 : emitsTag items .P_14_3 = true ↔
      ((sumByVat items).net5 ≠ 0 ∨ (sumByVat items).vat5 ≠ 0) := by
    rw [emitsTag_14_3]
    exact decide_eq_true_iff
  have honly23 : ((sumByVat items).net23 ≠ 0 ∨ (sumByVat items).vat23 ≠ 0) →
      ∃ it ∈ items, it.vat_rate = .v23 := by
    intro hz
    by_contra hno
    push_neg at hno
    have := foldl_sumByVat_no23 items ⟨0, 0, 0, 0, 0, 0, 0, 0, 0⟩ hno
    rcases hz with hz | hz
    · exact hz this.1
    · exact hz this.2
  have honly8 : ((sumByVat items).net8 ≠ 0 ∨ (sumByVat items).vat8 ≠ 0) →
      ∃ it ∈ items, it.vat_rate = .v8 := by
    intro hz
    by_contra hno
    push_neg at hno
    have := foldl_sumByVat_no8 items ⟨0, 0, 0, 0, 0, 0, 0, 0, 0⟩ hno
    rcases hz with hz | hz
    · exact hz this.1
    · exact hz this.2
  have honly5 : ((sumByVat items).net5 ≠ 0 ∨ (sumByVat items).vat5 ≠ 0) →
      ∃ it ∈ items, it.vat_rate = .v5 := by
    intro hz
    by_contra hno
    push_neg at hno
    have := foldl_sumByVat_no5 items ⟨0, 0, 0, 0, 0, 0, 0, 0, 0⟩ hno
    rcases hz with hz | hz
    · exact hz this.1
    · exact hz this.2
  exact ⟨fun h => honly23 (h231.mp h), fun h => honly23 (h232.mp h),
    fun h => honly8 (h81.mp h), fun h => honly8 (h82.mp h),
    fun h => honly5 (h51.mp h), fun h => honly5 (h52.mp h), h231, h81, h51⟩

/-- C8 witness: in the sample invoice the emitted `P_13_2` pair certifies
an 8 % item. -/
theorem C8_fa3_vat_totals_witness : ∃ it ∈ cexItems, it.vat_rate = .v8 :=
  (C8_fa3_vat_totals cexItems).2.2.1 (by decide)
